import Mathlib

/-!
# Verification of the contract-langgraph pool / registry core

Shallow embedding of the repository's resource-pool and registry layer:

* `src/llm/manager.py` — `LLMEntry`, `LLMManager` (`compute_config_hash`,
  `register_llm`, `get_llm`, `release_llm`, `cleanup_unused`);
* `src/llm/service/openai_service.py` — `OpenAIService` handle;
* `src/llm/factory/openai.py` — `OpenAIFactory.create_llm` / `create_service`;
* `src/agent/agent_manager.py` — `AgentManager` (`_compute_agent_id`,
  `register`, `create_agent`, `get_agent_ids_by_name`, `get_stats`).

Modelling conventions:
* Python `dict`s (insertion ordered, unique keys) are association lists
  `List (String × α)`; `d[k] = v` replaces in place when the key is present
  and appends otherwise (`setKey`); `del d[k]` / `d.pop(k)` removes the
  entry (`delKey`, which for the duplicate-free lists produced by these
  operations coincides with removing the single occurrence).
* `time.time()` values are modelled as integers (`Int`); only their order
  and differences matter to the code under verification.
* The opaque resource payload (`BaseLanguageModel`) is modelled by a `Nat`
  object identity: two resources are "the same instance" iff the ids agree.
* Python `int` is modelled by `Int` (unbounded, signed), so statements about
  reference counts never going negative are meaningful.
* `hashlib.md5(...).hexdigest()` is implemented bit-faithfully on byte lists
  (32-bit words as `Nat` reduced `% 2 ^ 32`).
-/

/-! ## Association-list model of Python dicts -/

/-- Keys of an association list, in insertion order (`list(d.keys())`). -/
def keysOf (l : List (String × α)) : List String := l.map Prod.fst

/-- `k in d` for a Python dict. -/
def hasKey (l : List (String × α)) (k : String) : Bool :=
  l.any (fun p => p.1 = k)

/-- `d.get(k)` for a Python dict (with unique keys, the first match). -/
def getKey (l : List (String × α)) (k : String) : Option α :=
  (l.find? (fun p => p.1 = k)).map (fun p => p.2)

/-- `d[k] = v`: replace in place if present, else append. -/
def setKey (l : List (String × α)) (k : String) (v : α) : List (String × α) :=
  match l with
  | [] => [(k, v)]
  | (k', v') :: rest =>
      if k' = k then (k, v) :: rest else (k', v') :: setKey rest k v

/-- `del d[k]` / `d.pop(k)` on a duplicate-free dict. -/
def delKey (l : List (String × α)) (k : String) : List (String × α) :=
  l.filter (fun p => !(p.1 = k : Bool))

theorem keysOf_cons (p : String × α) (l : List (String × α)) :
    keysOf (p :: l) = p.1 :: keysOf l := rfl

theorem getKey_eq_none_of_hasKey_eq_false {l : List (String × α)} {k : String}
    (h : hasKey l k = false) : getKey l k = none := by
  induction l with
  | nil => rfl
  | cons p rest ih =>
      simp only [hasKey, List.any_cons, Bool.or_eq_false_iff] at h
      have := ih h.2
      simpa [getKey, List.find?, h.1] using this

theorem hasKey_eq_true_of_getKey {l : List (String × α)} {k : String} {v : α}
    (h : getKey l k = some v) : hasKey l k = true := by
  unfold getKey at h
  unfold hasKey
  obtain ⟨p, hfind⟩ : ∃ p, l.find? (fun p => p.1 = k) = some p := by
    cases hf : l.find? (fun p => p.1 = k) with
    | none => rw [hf] at h; simp at h
    | some p => exact ⟨p, rfl⟩
  have hmem := List.mem_of_find?_eq_some hfind
  have hpk := List.find?_some hfind
  simp only [List.any_eq_true]
  exact ⟨p, hmem, hpk⟩

theorem mem_of_getKey {l : List (String × α)} {k : String} {v : α}
    (h : getKey l k = some v) : (k, v) ∈ l := by
  unfold getKey at h
  cases hf : l.find? (fun p => p.1 = k) with
  | none => rw [hf] at h; simp at h
  | some p =>
      rw [hf] at h
      have hmem := List.mem_of_find?_eq_some hf
      have hpk := List.find?_some hf
      simp only [decide_eq_true_eq] at hpk
      simp only [Option.map_some'] at h
      have : p = (k, v) := by
        obtain ⟨p1, p2⟩ := p
        simp_all
      rwa [this] at hmem

theorem getKey_setKey_self (l : List (String × α)) (k : String) (v : α) :
    getKey (setKey l k v) k = some v := by
  induction l with
  | nil => simp [setKey, getKey, List.find?]
  | cons p rest ih =>
      obtain ⟨k', v'⟩ := p
      by_cases h : k' = k
      · simp [setKey, h, getKey, List.find?]
      · simp only [setKey, if_neg h]
        simpa [getKey, List.find?, h] using ih

theorem getKey_setKey_ne (l : List (String × α)) (k k' : String) (v : α)
    (h : k' ≠ k) : getKey (setKey l k v) k' = getKey l k' := by
  have h' : ¬((k : String) = k') := fun hh => h hh.symm
  induction l with
  | nil => simp [setKey, getKey, List.find?, h']
  | cons p rest ih =>
      obtain ⟨k₀, v₀⟩ := p
      by_cases hk : k₀ = k
      · subst hk
        simp [setKey, getKey, List.find?, h']
      · simp only [setKey, if_neg hk]
        by_cases hk' : k₀ = k'
        · simp [getKey, List.find?, hk']
        · simpa [getKey, List.find?, hk'] using ih

theorem getKey_delKey_self (l : List (String × α)) (k : String) :
    getKey (delKey l k) k = none := by
  unfold getKey delKey
  rw [List.find?_eq_none.mpr]
  · rfl
  · intro p hp
    have := (List.mem_filter.mp hp).2
    simp only [Bool.not_eq_true', decide_eq_false_iff_not] at this
    simpa using this

theorem getKey_delKey_ne (l : List (String × α)) (k k' : String) (h : k' ≠ k) :
    getKey (delKey l k) k' = getKey l k' := by
  induction l with
  | nil => rfl
  | cons p rest ih =>
      obtain ⟨k₀, v₀⟩ := p
      by_cases hk : k₀ = k
      · subst hk
        have h2 : ¬((k₀ : String) = k') := fun hh => h hh.symm
        simpa [delKey, getKey, List.find?, List.filter_cons, h2] using ih
      · by_cases hk' : k₀ = k'
        · simp [delKey, getKey, List.find?, List.filter_cons, hk, hk', h]
        · simpa [delKey, getKey, List.find?, List.filter_cons, hk, hk', h] using ih

theorem mem_delKey {l : List (String × α)} {k : String} {p : String × α} :
    p ∈ delKey l k ↔ p ∈ l ∧ p.1 ≠ k := by
  unfold delKey
  simp [List.mem_filter]

theorem mem_setKey {l : List (String × α)} {k : String} {v : α} {p : String × α}
    (h : p ∈ setKey l k v) : p = (k, v) ∨ p ∈ l := by
  induction l with
  | nil => simpa [setKey] using h
  | cons q rest ih =>
      obtain ⟨k₀, v₀⟩ := q
      by_cases hk : k₀ = k
      · simp only [setKey, if_pos hk] at h
        rcases List.mem_cons.mp h with h1 | h1
        · exact Or.inl h1
        · exact Or.inr (List.mem_cons.mpr (Or.inr h1))
      · simp only [setKey, if_neg hk] at h
        rcases List.mem_cons.mp h with h1 | h1
        · exact Or.inr (List.mem_cons.mpr (Or.inl h1))
        · rcases ih h1 with h2 | h2
          · exact Or.inl h2
          · exact Or.inr (List.mem_cons.mpr (Or.inr h2))

theorem keysOf_setKey (l : List (String × α)) (k : String) (v : α) :
    keysOf (setKey l k v) =
      if hasKey l k = true then keysOf l else keysOf l ++ [k] := by
  induction l with
  | nil => simp [setKey, keysOf, hasKey]
  | cons p rest ih =>
      obtain ⟨k₀, v₀⟩ := p
      by_cases hk : k₀ = k
      · subst hk
        have h1 : hasKey ((k₀, v₀) :: rest) k₀ = true := by simp [hasKey]
        rw [h1, if_pos rfl]
        simp [setKey, keysOf_cons]
      · have hcons : hasKey ((k₀, v₀) :: rest) k = hasKey rest k := by
          simp [hasKey, List.any_cons, hk]
        rw [hcons]
        simp only [setKey, if_neg hk, keysOf_cons]
        rw [ih]
        by_cases hrest : hasKey rest k = true
        · rw [if_pos hrest, if_pos hrest]
        · rw [if_neg hrest, if_neg hrest]; rfl

theorem nodup_keysOf_setKey {l : List (String × α)} {k : String} {v : α}
    (h : (keysOf l).Nodup) : (keysOf (setKey l k v)).Nodup := by
  rw [keysOf_setKey]
  by_cases hh : hasKey l k = true
  · rw [if_pos hh]; exact h
  · rw [if_neg hh]
    simp only [Bool.not_eq_true] at hh
    rw [List.nodup_append]
    refine ⟨h, List.nodup_singleton k, ?_⟩
    intro a ha hb
    simp only [List.mem_singleton] at hb
    subst hb
    obtain ⟨p, hp, hpk⟩ := List.mem_map.mp ha
    have hx : l.any (fun q => decide (q.1 = a)) = true :=
      List.any_eq_true.mpr ⟨p, hp, by simp [hpk]⟩
    rw [show (hasKey l a : Bool) = l.any (fun q => decide (q.1 = a)) from rfl, hx]
      at hh
    cases hh

theorem keysOf_delKey_sublist (l : List (String × α)) (k : String) :
    (keysOf (delKey l k)).Sublist (keysOf l) := by
  unfold keysOf delKey
  exact List.Sublist.map Prod.fst (List.filter_sublist l)

theorem nodup_keysOf_delKey {l : List (String × α)} {k : String}
    (h : (keysOf l).Nodup) : (keysOf (delKey l k)).Nodup :=
  (keysOf_delKey_sublist l k).nodup h

/-! ## MD5 (`hashlib.md5(...).hexdigest()`), bit-faithful on byte lists -/

/-- 32-bit truncation. -/
def w32 (x : Nat) : Nat := x % 4294967296

/-- Bitwise complement on 32-bit words (`~x` for `x < 2^32`). -/
def not32 (x : Nat) : Nat := 4294967295 ^^^ x

/-- Left rotation of a 32-bit word. -/
def rotl32 (x n : Nat) : Nat :=
  w32 ((x <<< n) ||| (x >>> (32 - n)))

/-- The 64 per-round constants `K[i] = floor(2^32 * abs(sin(i+1)))`. -/
def md5K : List Nat :=
  [0xd76aa478, 0xe8c7b756, 0x242070db, 0xc1bdceee,
   0xf57c0faf, 0x4787c62a, 0xa8304613, 0xfd469501,
   0x698098d8, 0x8b44f7af, 0xffff5bb1, 0x895cd7be,
   0x6b901122, 0xfd987193, 0xa679438e, 0x49b40821,
   0xf61e2562, 0xc040b340, 0x265e5a51, 0xe9b6c7aa,
   0xd62f105d, 0x02441453, 0xd8a1e681, 0xe7d3fbc8,
   0x21e1cde6, 0xc33707d6, 0xf4d50d87, 0x455a14ed,
   0xa9e3e905, 0xfcefa3f8, 0x676f02d9, 0x8d2a4c8a,
   0xfffa3942, 0x8771f681, 0x6d9d6122, 0xfde5380c,
   0xa4beea44, 0x4bdecfa9, 0xf6bb4b60, 0xbebfbc70,
   0x289b7ec6, 0xeaa127fa, 0xd4ef3085, 0x04881d05,
   0xd9d4d039, 0xe6db99e5, 0x1fa27cf8, 0xc4ac5665,
   0xf4292244, 0x432aff97, 0xab9423a7, 0xfc93a039,
   0x655b59c3, 0x8f0ccc92, 0xffeff47d, 0x85845dd1,
   0x6fa87e4f, 0xfe2ce6e0, 0xa3014314, 0x4e0811a1,
   0xf7537e82, 0xbd3af235, 0x2ad7d2bb, 0xeb86d391]

/-- The 64 per-round left-rotation amounts. -/
def md5S : List Nat :=
  [7, 12, 17, 22, 7, 12, 17, 22, 7, 12, 17, 22, 7, 12, 17, 22,
   5, 9, 14, 20, 5, 9, 14, 20, 5, 9, 14, 20, 5, 9, 14, 20,
   4, 11, 16, 23, 4, 11, 16, 23, 4, 11, 16, 23, 4, 11, 16, 23,
   6, 10, 15, 21, 6, 10, 15, 21, 6, 10, 15, 21, 6, 10, 15, 21]

/-- One of the 64 MD5 steps on state `(a, b, c, d)`, with `m g` the `g`-th
little-endian 32-bit word of the current chunk. -/
def md5Step (m : Nat → Nat) (st : Nat × Nat × Nat × Nat) (i : Nat) :
    Nat × Nat × Nat × Nat :=
  let a := st.1
  let b := st.2.1
  let c := st.2.2.1
  let d := st.2.2.2
  let fg : Nat × Nat :=
    if i < 16 then ((b &&& c) ||| (not32 b &&& d), i)
    else if i < 32 then ((d &&& b) ||| (not32 d &&& c), (5 * i + 1) % 16)
    else if i < 48 then (b ^^^ c ^^^ d, (3 * i + 5) % 16)
    else (c ^^^ (b ||| not32 d), (7 * i) % 16)
  let f := w32 (fg.1 + a + md5K.getD i 0 + m fg.2)
  (d, w32 (b + rotl32 f (md5S.getD i 0)), b, c)

/-- The `g`-th little-endian word of a 64-byte chunk. -/
def chunkWord (chunk : List Nat) (g : Nat) : Nat :=
  chunk.getD (4 * g) 0 + 256 * chunk.getD (4 * g + 1) 0 +
    65536 * chunk.getD (4 * g + 2) 0 + 16777216 * chunk.getD (4 * g + 3) 0

/-- Compress one 64-byte chunk into the running state. -/
def md5Chunk (st : Nat × Nat × Nat × Nat) (chunk : List Nat) :
    Nat × Nat × Nat × Nat :=
  let r := (List.range 64).foldl (md5Step (chunkWord chunk)) st
  (w32 (st.1 + r.1), w32 (st.2.1 + r.2.1), w32 (st.2.2.1 + r.2.2.1),
    w32 (st.2.2.2 + r.2.2.2))

/-- MD5 padding: append `0x80`, zero-pad to 56 mod 64, append the bit length
as a 64-bit little-endian integer. -/
def md5Pad (msg : List Nat) : List Nat :=
  let len := msg.length
  let zeros := (119 - len % 64) % 64
  let bitLen := (len * 8) % 18446744073709551616
  msg ++ [0x80] ++ List.replicate zeros 0 ++
    (List.range 8).map (fun i => (bitLen >>> (8 * i)) % 256)

/-- Split a byte list into 64-byte chunks (structural recursion on a fuel
bounded by the list length: every step consumes at least one element, so
the fuel never runs out before the list does). -/
def md5ChunksAux : Nat → List Nat → List (List Nat)
  | 0, _ => []
  | _ + 1, [] => []
  | fuel + 1, a :: rest =>
      (a :: rest).take 64 :: md5ChunksAux fuel ((a :: rest).drop 64)

/-- Split a byte list into 64-byte chunks. -/
def md5Chunks (l : List Nat) : List (List Nat) :=
  md5ChunksAux l.length l

/-- The four final 32-bit state words of MD5 over a byte list. -/
def md5Words (msg : List Nat) : Nat × Nat × Nat × Nat :=
  (md5Chunks (md5Pad msg)).foldl md5Chunk
    (0x67452301, 0xefcdab89, 0x98badcfe, 0x10325476)

/-- A nibble as a lowercase hex character. -/
def hexChar (n : Nat) : Char :=
  if n < 10 then Char.ofNat (48 + n) else Char.ofNat (87 + n)

/-- A byte as two lowercase hex characters. -/
def byteHex (b : Nat) : List Char := [hexChar (b / 16), hexChar (b % 16)]

/-- A 32-bit word rendered as 8 hex characters, little-endian byte order
(as MD5's digest serialization requires). -/
def wordHexLE (x : Nat) : List Char :=
  byteHex (x % 256) ++ byteHex (x / 256 % 256) ++ byteHex (x / 65536 % 256) ++
    byteHex (x / 16777216 % 256)

/-- `hashlib.md5(bytes).hexdigest()`. -/
def md5Hex (msg : List Nat) : String :=
  let ws := md5Words msg
  String.mk (wordHexLE ws.1 ++ wordHexLE ws.2.1 ++ wordHexLE ws.2.2.1 ++
    wordHexLE ws.2.2.2)

/-- UTF-8 encoding of a string as a byte list (`str.encode()`). -/
def utf8Encode (s : String) : List Nat :=
  s.data.flatMap (fun c =>
    let n := c.toNat
    if n < 128 then [n]
    else if n < 2048 then [192 + n / 64, 128 + n % 64]
    else if n < 65536 then
      [224 + n / 4096, 128 + n / 64 % 64, 128 + n % 64]
    else
      [240 + n / 262144, 128 + n / 4096 % 64, 128 + n / 64 % 64, 128 + n % 64])

/-! ## Python serialization of configurations

`LLMManager.compute_config_hash` hashes `str(sorted(config.items()))`;
`AgentManager._compute_agent_id` hashes
`f"{name}:{json.dumps(sorted(config.items()), sort_keys=True, ensure_ascii=False)}"`.
Configurations are modelled as insertion-ordered `List (String × String)`
(string-valued `Dict[str, Any]`); `sorted` on pairs compares by key and then
by value, exactly Python's tuple ordering on `(str, str)`.  Python `repr` of
a string is modelled for the common case (single quotes, with backslash,
quote, newline, carriage-return and tab escaped, other control characters
as hex escapes); exotic quote-selection corner cases do not affect any
claim below. -/

/-- Lexicographic `(key, value)` order used by `sorted(config.items())`. -/
def pairLe (p q : String × String) : Prop :=
  p.1 < q.1 ∨ (p.1 = q.1 ∧ p.2 ≤ q.2)

instance : DecidableRel pairLe := fun p q => by
  unfold pairLe; infer_instance

/-- `\xhh`-style escape body used by Python `repr` for control characters. -/
def pyHexEsc (n : Nat) : List Char :=
  [Char.ofNat 92, Char.ofNat 120, hexChar (n / 16), hexChar (n % 16)]

/-- Escaping of one character inside a single-quoted Python `repr`. -/
def pyEscChar (c : Char) : List Char :=
  if c.toNat = 92 then [Char.ofNat 92, Char.ofNat 92]
  else if c.toNat = 39 then [Char.ofNat 92, Char.ofNat 39]
  else if c.toNat = 10 then [Char.ofNat 92, Char.ofNat 110]
  else if c.toNat = 13 then [Char.ofNat 92, Char.ofNat 114]
  else if c.toNat = 9 then [Char.ofNat 92, Char.ofNat 116]
  else if c.toNat < 32 ∨ c.toNat = 127 then pyHexEsc c.toNat
  else [c]

/-- Python `repr` of a string (single-quoted form). -/
def pyReprStr (s : String) : String :=
  String.mk (Char.ofNat 39 :: s.data.flatMap pyEscChar ++ [Char.ofNat 39])

/-- Python `str` of a 2-tuple of strings. -/
def pyStrPair (p : String × String) : String :=
  "(" ++ pyReprStr p.1 ++ ", " ++ pyReprStr p.2 ++ ")"

/-- Python `str` of a list of 2-tuples of strings. -/
def pyStrPairList (l : List (String × String)) : String :=
  "[" ++ String.intercalate ", " (l.map pyStrPair) ++ "]"

/-- The exact byte string hashed by `compute_config_hash`:
`str(sorted(config.items())).encode()`. -/
def configSerialization (config : List (String × String)) : String :=
  pyStrPairList (List.insertionSort pairLe config)

/-- `LLMManager.compute_config_hash` (`src/llm/manager.py`). -/
def compute_config_hash (config : List (String × String)) : String :=
  md5Hex (utf8Encode (configSerialization config))

/-- Escaping of one character inside a JSON string (`json.dumps`,
`ensure_ascii=False`). -/
def jsonEscChar (c : Char) : List Char :=
  if c.toNat = 34 then [Char.ofNat 92, Char.ofNat 34]
  else if c.toNat = 92 then [Char.ofNat 92, Char.ofNat 92]
  else if c.toNat = 10 then [Char.ofNat 92, Char.ofNat 110]
  else if c.toNat = 13 then [Char.ofNat 92, Char.ofNat 114]
  else if c.toNat = 9 then [Char.ofNat 92, Char.ofNat 116]
  else if c.toNat < 32 then
    [Char.ofNat 92, Char.ofNat 117, Char.ofNat 48, Char.ofNat 48,
      hexChar (c.toNat / 16), hexChar (c.toNat % 16)]
  else [c]

/-- JSON serialization of a string. -/
def jsonStr (s : String) : String :=
  String.mk (Char.ofNat 34 :: s.data.flatMap jsonEscChar ++ [Char.ofNat 34])

/-- JSON serialization of one `(key, value)` tuple (a two-element array). -/
def jsonPair (p : String × String) : String :=
  "[" ++ jsonStr p.1 ++ ", " ++ jsonStr p.2 ++ "]"

/-- The string hashed by `_compute_agent_id`:
`f"{name}:{json.dumps(sorted(config.items()), ...)}"`. -/
def agentIdSerialization (name : String) (config : List (String × String)) :
    String :=
  name ++ ":" ++
    ("[" ++
      String.intercalate ", " ((List.insertionSort pairLe config).map jsonPair)
      ++ "]")

/-- `AgentManager._compute_agent_id` (`src/agent/agent_manager.py`). -/
def computeAgentId (name : String) (config : List (String × String)) : String :=
  md5Hex (utf8Encode (agentIdSerialization name config))

/-! ## `LLMEntry` and the `LLMManager` pool (`src/llm/manager.py`) -/

/-- `LLMEntry` (dataclass): one pooled resource.  `llm` is the resource's
object identity. -/
structure LLMEntry where
  llm : Nat
  config_hash : String
  config : List (String × String)
  created_at : Int
  last_used_at : Int
  reference_count : Int
  is_in_use : Bool
deriving DecidableEq, Repr

/-- The mutable state of the `LLMManager` singleton: the two dicts plus the
configuration knobs read by `cleanup_unused`. -/
structure ManagerState where
  active : List (String × LLMEntry)
  cache : List (String × LLMEntry)
  cache_ttl : Int
  max_cache_size : Nat
deriving DecidableEq, Repr

/-- A freshly `__init__`-ed manager (defaults `cache_ttl=3600`,
`max_cache_size=100`). -/
def initManager (ttl : Int) (maxSize : Nat) : ManagerState :=
  { active := [], cache := [], cache_ttl := ttl, max_cache_size := maxSize }

/-- `LLMManager.register_llm`: register a newly created LLM.  Returns the
new state and the `(config_hash, llm)` pair the method returns.
`now` models `time.time()`. -/
def register_llm (st : ManagerState) (llm : Nat)
    (config : List (String × String)) (now : Int) :
    ManagerState × String × Nat :=
  let config_hash := compute_config_hash config
  match getKey st.cache config_hash with
  | some entry =>
      let entry' := { entry with is_in_use := true, reference_count := 1,
                                 last_used_at := now }
      ({ st with cache := delKey st.cache config_hash,
                 active := setKey st.active config_hash entry' },
        config_hash, entry.llm)
  | none =>
      let entry : LLMEntry :=
        { llm := llm, config_hash := config_hash, config := config,
          created_at := now, last_used_at := now,
          is_in_use := true, reference_count := 1 }
      ({ st with active := setKey st.active config_hash entry },
        config_hash, llm)

/-- `LLMManager.get_llm`: look up by config hash, bumping the reference
count of an active entry or reviving a cached one. -/
def get_llm (st : ManagerState) (config_hash : String) (now : Int) :
    ManagerState × Option Nat :=
  match getKey st.active config_hash with
  | some entry =>
      let entry' := { entry with last_used_at := now,
                                 reference_count := entry.reference_count + 1 }
      ({ st with active := setKey st.active config_hash entry' }, some entry.llm)
  | none =>
      match getKey st.cache config_hash with
      | some entry =>
          let entry' := { entry with is_in_use := true, reference_count := 1,
                                     last_used_at := now }
          ({ st with cache := delKey st.cache config_hash,
                     active := setKey st.active config_hash entry' },
            some entry.llm)
      | none => (st, none)

/-- `LLMManager.release_llm`: decrement the reference count; at (or below)
zero, clamp to zero and move the entry to the cache pool.  The method reads
no clock — `last_used_at` is left as it was. -/
def release_llm (st : ManagerState) (config_hash : String) : ManagerState :=
  match getKey st.active config_hash with
  | none => st
  | some entry =>
      let rc := entry.reference_count - 1
      if rc ≤ 0 then
        let entry' := { entry with is_in_use := false, reference_count := 0 }
        { st with active := delKey st.active config_hash,
                  cache := setKey st.cache config_hash entry' }
      else
        { st with active := setKey st.active config_hash
                              { entry with reference_count := rc } }

/-- Order on cache items used by `cleanup_unused`'s
`sorted(..., key=lambda x: x[1].last_used_at)`. -/
def lastUsedLe (p q : String × LLMEntry) : Prop :=
  p.2.last_used_at ≤ q.2.last_used_at

instance : DecidableRel lastUsedLe := fun p q => by
  unfold lastUsedLe; infer_instance

/-- `LLMManager.cleanup_unused`: drop expired cache entries, then evict the
oldest cache entries down to `max_cache_size`.  Active entries are never
touched. -/
def cleanup_unused (st : ManagerState) (now : Int) : ManagerState :=
  let cache1 := st.cache.filter
    (fun p => !(now - p.2.last_used_at > st.cache_ttl : Bool))
  if cache1.length > st.max_cache_size then
    let sortedEntries := List.insertionSort lastUsedLe cache1
    let excess := cache1.length - st.max_cache_size
    let removedKeys := (sortedEntries.take excess).map Prod.fst
    { st with cache := removedKeys.foldl delKey cache1 }
  else
    { st with cache := cache1 }

/-! ## Pool invariant -/

theorem mem_keysOf_iff_hasKey {l : List (String × α)} {k : String} :
    k ∈ keysOf l ↔ hasKey l k = true := by
  unfold keysOf hasKey
  rw [List.any_eq_true]
  constructor
  · intro h
    obtain ⟨p, hp, hpk⟩ := List.mem_map.mp h
    exact ⟨p, hp, by simp [hpk]⟩
  · rintro ⟨p, hp, hpk⟩
    simp only [decide_eq_true_eq] at hpk
    exact List.mem_map.mpr ⟨p, hp, hpk⟩

theorem hasKey_eq_false_of_getKey_eq_none {l : List (String × α)} {k : String}
    (h : getKey l k = none) : hasKey l k = false := by
  by_contra hc
  simp only [Bool.not_eq_false] at hc
  unfold hasKey at hc
  rw [List.any_eq_true] at hc
  obtain ⟨p, hp, hpk⟩ := hc
  have : (l.find? (fun p => p.1 = k)).isSome :=
    List.find?_isSome.mpr ⟨p, hp, hpk⟩
  unfold getKey at h
  cases hf : l.find? (fun p => p.1 = k) with
  | none => rw [hf] at this; cases this
  | some q => rw [hf] at h; simp at h

theorem mem_keysOf_delKey {l : List (String × α)} {k k' : String} :
    k' ∈ keysOf (delKey l k) ↔ k' ∈ keysOf l ∧ k' ≠ k := by
  unfold keysOf delKey
  constructor
  · intro h
    obtain ⟨p, hp, hpk⟩ := List.mem_map.mp h
    obtain ⟨hpl, hpred⟩ := List.mem_filter.mp hp
    simp only [Bool.not_eq_true', decide_eq_false_iff_not] at hpred
    exact ⟨List.mem_map.mpr ⟨p, hpl, hpk⟩, hpk ▸ hpred⟩
  · rintro ⟨h, hne⟩
    obtain ⟨p, hp, hpk⟩ := List.mem_map.mp h
    refine List.mem_map.mpr ⟨p, List.mem_filter.mpr ⟨hp, ?_⟩, hpk⟩
    simp only [Bool.not_eq_true', decide_eq_false_iff_not]
    rw [hpk]; exact hne

theorem not_mem_keysOf_setKey {l : List (String × α)} {k k' : String} {v : α}
    (h : k' ∉ keysOf l) (hne : k' ≠ k) : k' ∉ keysOf (setKey l k v) := by
  rw [keysOf_setKey]
  by_cases hh : hasKey l k = true
  · rw [if_pos hh]; exact h
  · rw [if_neg hh]
    intro hc
    rcases List.mem_append.mp hc with h1 | h1
    · exact h h1
    · simp only [List.mem_singleton] at h1; exact hne h1

theorem mem_keysOf_setKey {l : List (String × α)} {k k' : String} {v : α}
    (h : k' ∈ keysOf (setKey l k v)) : k' ∈ keysOf l ∨ k' = k := by
  rw [keysOf_setKey] at h
  by_cases hh : hasKey l k = true
  · rw [if_pos hh] at h; exact Or.inl h
  · rw [if_neg hh] at h
    rcases List.mem_append.mp h with h1 | h1
    · exact Or.inl h1
    · simp only [List.mem_singleton] at h1; exact Or.inr h1

theorem not_mem_keysOf_delKey (l : List (String × α)) (k : String) :
    k ∉ keysOf (delKey l k) := fun h => (mem_keysOf_delKey.mp h).2 rfl

theorem foldl_delKey_sublist :
    ∀ (ks : List String) (l : List (String × α)),
      (ks.foldl delKey l).Sublist l
  | [], _ => List.Sublist.refl _
  | k :: ks, l =>
      (foldl_delKey_sublist ks (delKey l k)).trans (List.filter_sublist l)

/-- The pool-state invariant (claim C3): every active entry has a positive
reference count, every cached (idle) entry has reference count zero, no
fingerprint is in both dicts, and both dicts have duplicate-free keys. -/
def PoolInv (st : ManagerState) : Prop :=
  (∀ p ∈ st.active, p.2.reference_count > 0) ∧
  (∀ p ∈ st.cache, p.2.reference_count = 0) ∧
  (∀ k ∈ keysOf st.active, k ∉ keysOf st.cache) ∧
  (keysOf st.active).Nodup ∧ (keysOf st.cache).Nodup

instance (st : ManagerState) : Decidable (PoolInv st) := by
  unfold PoolInv; infer_instance

theorem poolInv_register (st : ManagerState) (h : PoolInv st)
    (llm : Nat) (config : List (String × String)) (now : Int) :
    PoolInv (register_llm st llm config now).1 := by
  obtain ⟨hact, hcache, hdisj, hnodA, hnodC⟩ := h
  simp only [register_llm]
  cases hc : getKey st.cache (compute_config_hash config) with
  | some entry =>
      refine ⟨?_, ?_, ?_, ?_, ?_⟩
      · intro p hp
        rcases mem_setKey hp with h1 | h1
        · subst h1; norm_num
        · exact hact p h1
      · intro p hp
        exact hcache p (mem_delKey.mp hp).1
      · intro k hk
        rcases mem_keysOf_setKey hk with h1 | h1
        · intro hc2
          exact hdisj k h1 (mem_keysOf_delKey.mp hc2).1
        · subst h1
          exact not_mem_keysOf_delKey _ _
      · exact nodup_keysOf_setKey hnodA
      · exact nodup_keysOf_delKey hnodC
  | none =>
      have hnc : hasKey st.cache (compute_config_hash config) = false :=
        hasKey_eq_false_of_getKey_eq_none hc
      refine ⟨?_, hcache, ?_, nodup_keysOf_setKey hnodA, hnodC⟩
      · intro p hp
        rcases mem_setKey hp with h1 | h1
        · subst h1; norm_num
        · exact hact p h1
      · intro k hk
        rcases mem_keysOf_setKey hk with h1 | h1
        · exact hdisj k h1
        · subst h1
          intro hc2
          rw [mem_keysOf_iff_hasKey] at hc2
          rw [hnc] at hc2
          cases hc2

theorem poolInv_get (st : ManagerState) (h : PoolInv st)
    (config_hash : String) (now : Int) :
    PoolInv (get_llm st config_hash now).1 := by
  obtain ⟨hact, hcache, hdisj, hnodA, hnodC⟩ := h
  simp only [get_llm]
  cases ha : getKey st.active config_hash with
  | some entry =>
      have hmem := mem_of_getKey ha
      have hrc : entry.reference_count > 0 := hact _ hmem
      refine ⟨?_, hcache, ?_, nodup_keysOf_setKey hnodA, hnodC⟩
      · intro p hp
        rcases mem_setKey hp with h1 | h1
        · subst h1; simp only; omega
        · exact hact p h1
      · intro k hk
        rcases mem_keysOf_setKey hk with h1 | h1
        · exact hdisj k h1
        · subst h1
          exact hdisj _ (mem_keysOf_iff_hasKey.mpr (hasKey_eq_true_of_getKey ha))
  | none =>
      cases hc : getKey st.cache config_hash with
      | some entry =>
          refine ⟨?_, ?_, ?_, nodup_keysOf_setKey hnodA, nodup_keysOf_delKey hnodC⟩
          · intro p hp
            rcases mem_setKey hp with h1 | h1
            · subst h1; norm_num
            · exact hact p h1
          · intro p hp
            exact hcache p (mem_delKey.mp hp).1
          · intro k hk
            rcases mem_keysOf_setKey hk with h1 | h1
            · intro hc2
              exact hdisj k h1 (mem_keysOf_delKey.mp hc2).1
            · subst h1
              exact not_mem_keysOf_delKey _ _
      | none => exact ⟨hact, hcache, hdisj, hnodA, hnodC⟩

theorem poolInv_release (st : ManagerState) (h : PoolInv st)
    (config_hash : String) : PoolInv (release_llm st config_hash) := by
  obtain ⟨hact, hcache, hdisj, hnodA, hnodC⟩ := h
  simp only [release_llm]
  cases ha : getKey st.active config_hash with
  | none => exact ⟨hact, hcache, hdisj, hnodA, hnodC⟩
  | some entry =>
      dsimp only
      by_cases hrc : entry.reference_count - 1 ≤ 0
      · rw [if_pos hrc]
        refine ⟨?_, ?_, ?_, nodup_keysOf_delKey hnodA, nodup_keysOf_setKey hnodC⟩
        · intro p hp
          exact hact p (mem_delKey.mp hp).1
        · intro p hp
          rcases mem_setKey hp with h1 | h1
          · subst h1; rfl
          · exact hcache p h1
        · intro k hk
          obtain ⟨hk1, hk2⟩ := mem_keysOf_delKey.mp hk
          exact not_mem_keysOf_setKey (hdisj k hk1) hk2
      · rw [if_neg hrc]
        refine ⟨?_, hcache, ?_, nodup_keysOf_setKey hnodA, hnodC⟩
        · intro p hp
          rcases mem_setKey hp with h1 | h1
          · subst h1; simp only; omega
          · exact hact p h1
        · intro k hk
          rcases mem_keysOf_setKey hk with h1 | h1
          · exact hdisj k h1
          · subst h1
            exact hdisj _ (mem_keysOf_iff_hasKey.mpr (hasKey_eq_true_of_getKey ha))

theorem cleanup_active_eq (st : ManagerState) (now : Int) :
    (cleanup_unused st now).active = st.active := by
  simp only [cleanup_unused]
  split <;> rfl

theorem cleanup_cache_sublist (st : ManagerState) (now : Int) :
    ((cleanup_unused st now).cache).Sublist st.cache := by
  simp only [cleanup_unused]
  split
  · exact (foldl_delKey_sublist _ _).trans (List.filter_sublist _)
  · exact List.filter_sublist _

theorem poolInv_cleanup (st : ManagerState) (h : PoolInv st) (now : Int) :
    PoolInv (cleanup_unused st now) := by
  obtain ⟨hact, hcache, hdisj, hnodA, hnodC⟩ := h
  have hs := cleanup_cache_sublist st now
  have ha := cleanup_active_eq st now
  refine ⟨?_, ?_, ?_, ?_, ?_⟩
  · rw [ha]; exact hact
  · intro p hp; exact hcache p (hs.subset hp)
  · intro k hk hc2
    rw [ha] at hk
    exact hdisj k hk ((hs.map Prod.fst).subset hc2)
  · rw [ha]; exact hnodA
  · exact (hs.map Prod.fst).nodup hnodC

/-! ## Equation lemmas for the pool operations -/

theorem get_llm_active (st : ManagerState) (h : String) (now : Int)
    (e : LLMEntry) (ha : getKey st.active h = some e) :
    get_llm st h now =
      ({ st with
          active := setKey st.active h
            ({ e with last_used_at := now,
                      reference_count := e.reference_count + 1 }) },
        some e.llm) := by
  simp only [get_llm, ha]

theorem get_llm_cache (st : ManagerState) (h : String) (now : Int)
    (e : LLMEntry) (ha : getKey st.active h = none)
    (hc : getKey st.cache h = some e) :
    get_llm st h now =
      ({ st with
          active := setKey st.active h
            ({ e with is_in_use := true, reference_count := 1,
                      last_used_at := now }),
          cache := delKey st.cache h },
        some e.llm) := by
  simp only [get_llm, ha, hc]

theorem get_llm_miss (st : ManagerState) (h : String) (now : Int)
    (ha : getKey st.active h = none) (hc : getKey st.cache h = none) :
    get_llm st h now = (st, none) := by
  simp only [get_llm, ha, hc]

theorem register_llm_fresh (st : ManagerState) (llm : Nat)
    (config : List (String × String)) (now : Int)
    (hc : getKey st.cache (compute_config_hash config) = none) :
    register_llm st llm config now =
      ({ st with
          active := setKey st.active (compute_config_hash config)
            ({ llm := llm, config_hash := compute_config_hash config,
               config := config, created_at := now, last_used_at := now,
               is_in_use := true, reference_count := 1 }) },
        compute_config_hash config, llm) := by
  simp only [register_llm, hc]

theorem register_llm_cached (st : ManagerState) (llm : Nat)
    (config : List (String × String)) (now : Int) (e : LLMEntry)
    (hc : getKey st.cache (compute_config_hash config) = some e) :
    register_llm st llm config now =
      ({ st with
          cache := delKey st.cache (compute_config_hash config),
          active := setKey st.active (compute_config_hash config)
            ({ e with is_in_use := true, reference_count := 1,
                      last_used_at := now }) },
        compute_config_hash config, e.llm) := by
  simp only [register_llm, hc]

theorem release_llm_unknown (st : ManagerState) (h : String)
    (ha : getKey st.active h = none) : release_llm st h = st := by
  simp only [release_llm, ha]

theorem release_llm_to_cache (st : ManagerState) (h : String) (e : LLMEntry)
    (ha : getKey st.active h = some e) (hrc : e.reference_count - 1 ≤ 0) :
    release_llm st h =
      { st with
          active := delKey st.active h,
          cache := setKey st.cache h
            ({ e with is_in_use := false, reference_count := 0 }) } := by
  simp only [release_llm, ha]
  rw [if_pos hrc]

theorem release_llm_dec (st : ManagerState) (h : String) (e : LLMEntry)
    (ha : getKey st.active h = some e) (hrc : ¬e.reference_count - 1 ≤ 0) :
    release_llm st h =
      { st with
          active := setKey st.active h
            ({ e with reference_count := e.reference_count - 1 }) } := by
  simp only [release_llm, ha]
  rw [if_neg hrc]

/-! ## Claim C3 — pool state invariant over arbitrary operation sequences -/

/-- One public mutating operation of the pool, for quantifying over call
sequences. -/
inductive PoolOp
| registerOp (llm : Nat) (config : List (String × String)) (now : Int)
| getOp (config_hash : String) (now : Int)
| releaseOp (config_hash : String)
| cleanupOp (now : Int)

/-- Apply one pool operation (discarding the returned value). -/
def applyOp (st : ManagerState) : PoolOp → ManagerState
| .registerOp llm config now => (register_llm st llm config now).1
| .getOp config_hash now => (get_llm st config_hash now).1
| .releaseOp config_hash => release_llm st config_hash
| .cleanupOp now => cleanup_unused st now

/-- Run a sequence of pool operations. -/
def runOps (st : ManagerState) (ops : List PoolOp) : ManagerState :=
  ops.foldl applyOp st

theorem poolInv_applyOp (st : ManagerState) (h : PoolInv st) (op : PoolOp) :
    PoolInv (applyOp st op) := by
  cases op with
  | registerOp llm config now => exact poolInv_register st h llm config now
  | getOp config_hash now => exact poolInv_get st h config_hash now
  | releaseOp config_hash => exact poolInv_release st h config_hash
  | cleanupOp now => exact poolInv_cleanup st h now

theorem poolInv_runOps (st : ManagerState) (h : PoolInv st)
    (ops : List PoolOp) : PoolInv (runOps st ops) := by
  induction ops generalizing st with
  | nil => exact h
  | cons op rest ih => exact ih (applyOp st op) (poolInv_applyOp st h op)

theorem poolInv_init (ttl : Int) (maxSize : Nat) :
    PoolInv (initManager ttl maxSize) := by
  refine ⟨?_, ?_, ?_, ?_, ?_⟩ <;> simp [initManager, keysOf]

/-- C3: after any sequence of `register_llm` / `get_llm` / `release_llm` /
`cleanup_unused` operations on a freshly initialized manager, every entry in
the active dict has `reference_count > 0`, every entry in the cache (idle)
dict has `reference_count == 0`, no fingerprint is present in both dicts,
and no entry's `reference_count` is ever negative. -/
theorem c3_pool_state_invariant (ttl : Int) (maxSize : Nat)
    (ops : List PoolOp) :
    (∀ p ∈ (runOps (initManager ttl maxSize) ops).active,
        p.2.reference_count > 0) ∧
    (∀ p ∈ (runOps (initManager ttl maxSize) ops).cache,
        p.2.reference_count = 0) ∧
    (∀ k ∈ keysOf (runOps (initManager ttl maxSize) ops).active,
        k ∉ keysOf (runOps (initManager ttl maxSize) ops).cache) ∧
    (∀ p ∈ (runOps (initManager ttl maxSize) ops).active,
        p.2.reference_count ≥ 0) ∧
    (∀ p ∈ (runOps (initManager ttl maxSize) ops).cache,
        p.2.reference_count ≥ 0) := by
  obtain ⟨h1, h2, h3, _, _⟩ :=
    poolInv_runOps _ (poolInv_init ttl maxSize) ops
  refine ⟨h1, h2, h3, ?_, ?_⟩
  · intro p hp
    have := h1 p hp
    omega
  · intro p hp
    have := h2 p hp
    omega

/-! ## Claim C1 — acquire correctness -/

/-- C1: `get_llm` on an active fingerprint increments that entry's
`reference_count`, refreshes `last_used_at`, and returns the same resource
object; on an idle (cached) fingerprint it moves the entry back to the
active dict with `reference_count = 1` and refreshed `last_used_at` and
returns the same resource instance without reconstruction; two sequential
acquires for the same configuration with no intervening release to zero
return the identical resource instance and leave `reference_count = 2`. -/
theorem c1_pool_acquire_correct (st : ManagerState) :
    (∀ h e now, getKey st.active h = some e →
        (get_llm st h now).2 = some e.llm ∧
        getKey (get_llm st h now).1.active h =
          some ({ e with last_used_at := now,
                         reference_count := e.reference_count + 1 }) ∧
        (get_llm st h now).1.cache = st.cache) ∧
    (∀ h e now, getKey st.active h = none → getKey st.cache h = some e →
        (get_llm st h now).2 = some e.llm ∧
        getKey (get_llm st h now).1.active h =
          some ({ e with is_in_use := true, reference_count := 1,
                         last_used_at := now }) ∧
        getKey (get_llm st h now).1.cache h = none) ∧
    (∀ h e t₁ t₂, getKey st.active h = none → getKey st.cache h = some e →
        (get_llm st h t₁).2 = some e.llm ∧
        (get_llm (get_llm st h t₁).1 h t₂).2 = some e.llm ∧
        ∃ e₂, getKey (get_llm (get_llm st h t₁).1 h t₂).1.active h = some e₂ ∧
          e₂.llm = e.llm ∧ e₂.reference_count = 2 ∧ e₂.last_used_at = t₂) ∧
    (∀ llm config t₁ t₂,
        getKey st.cache (compute_config_hash config) = none →
        (register_llm st llm config t₁).2.2 = llm ∧
        (get_llm (register_llm st llm config t₁).1
            (compute_config_hash config) t₂).2 = some llm ∧
        ∃ e₂, getKey (get_llm (register_llm st llm config t₁).1
            (compute_config_hash config) t₂).1.active
            (compute_config_hash config) = some e₂ ∧
          e₂.llm = llm ∧ e₂.reference_count = 2) := by
  refine ⟨?_, ?_, ?_, ?_⟩
  · intro h e now ha
    rw [get_llm_active st h now e ha]
    exact ⟨rfl, getKey_setKey_self _ _ _, rfl⟩
  · intro h e now ha hc
    rw [get_llm_cache st h now e ha hc]
    exact ⟨rfl, getKey_setKey_self _ _ _, getKey_delKey_self _ _⟩
  · intro h e t₁ t₂ ha hc
    have h1 := get_llm_cache st h t₁ e ha hc
    have hA2 : getKey (get_llm st h t₁).1.active h =
        some ({ e with is_in_use := true, reference_count := 1,
                       last_used_at := t₁ }) := by
      rw [h1]; exact getKey_setKey_self _ _ _
    have h2 := get_llm_active (get_llm st h t₁).1 h t₂ _ hA2
    refine ⟨by rw [h1], by rw [h2], ?_⟩
    rw [h2]
    refine ⟨_, getKey_setKey_self _ _ _, ?_, ?_, ?_⟩
    · rfl
    · norm_num
    · rfl
  · intro llm config t₁ t₂ hc
    have h1 := register_llm_fresh st llm config t₁ hc
    have hA2 : getKey (register_llm st llm config t₁).1.active
        (compute_config_hash config) =
        some ({ llm := llm, config_hash := compute_config_hash config,
                config := config, created_at := t₁, last_used_at := t₁,
                is_in_use := true, reference_count := 1 }) := by
      rw [h1]; exact getKey_setKey_self _ _ _
    have h2 := get_llm_active _ _ t₂ _ hA2
    refine ⟨by rw [h1], by rw [h2], ?_⟩
    rw [h2]
    refine ⟨_, getKey_setKey_self _ _ _, ?_, ?_⟩
    · rfl
    · norm_num

/-- Concrete idle entry used by the C1 witness. -/
def c1WEntry : LLMEntry :=
  { llm := 42, config_hash := "h", config := [], created_at := 0,
    last_used_at := 0, reference_count := 0, is_in_use := false }

/-- Concrete manager state used by the C1 witness. -/
def c1WSt : ManagerState :=
  { active := [], cache := [("h", c1WEntry)], cache_ttl := 3600,
    max_cache_size := 100 }

theorem c1_pool_acquire_correct_witness :
    getKey c1WSt.active "h" = none ∧ getKey c1WSt.cache "h" = some c1WEntry ∧
    ((get_llm c1WSt "h" 5).2 = some c1WEntry.llm ∧
      getKey (get_llm c1WSt "h" 5).1.active "h" =
        some ({ c1WEntry with is_in_use := true, reference_count := 1,
                              last_used_at := 5 }) ∧
      getKey (get_llm c1WSt "h" 5).1.cache "h" = none) :=
  ⟨by decide, by decide,
    (c1_pool_acquire_correct c1WSt).2.1 "h" c1WEntry 5 (by decide) (by decide)⟩

/-! ## Claim C2 — release correctness

`release_llm` does **not** read the clock: the entry moved to the cache
pool keeps the `last_used_at` it already had (it was last stamped by
`register_llm`/`get_llm`).  The claimed stamping behaviour is stated below
as a separate definition following the specification's words, and refuted
against the code at a concrete input. -/

/-- The release operation as the specification words it ("move the entry
from active to idle and stamp `last_used_at`"), for comparison with the
code's `release_llm`.  This is the claim's version, not the code's. -/
def release_llm_asSpecified (st : ManagerState) (config_hash : String)
    (now : Int) : ManagerState :=
  match getKey st.active config_hash with
  | none => st
  | some entry =>
      let rc := entry.reference_count - 1
      if rc ≤ 0 then
        { st with
            active := delKey st.active config_hash,
            cache := setKey st.cache config_hash
              ({ entry with is_in_use := false, reference_count := 0,
                            last_used_at := now }) }
      else
        { st with
            active := setKey st.active config_hash
              ({ entry with reference_count := rc }) }

/-- Concrete active entry (`reference_count = 1`, `last_used_at = 0`) for
the C2 counterexample. -/
def c2CexEntry : LLMEntry :=
  { llm := 7, config_hash := "h", config := [], created_at := 0,
    last_used_at := 0, reference_count := 1, is_in_use := true }

/-- Concrete manager state for the C2 counterexample. -/
def c2CexSt : ManagerState :=
  { active := [("h", c2CexEntry)], cache := [], cache_ttl := 3600,
    max_cache_size := 100 }

/-- C2 counterexample: releasing the only reference at current time 5 moves
the entry to the cache pool with `last_used_at` still 0 — the code does not
stamp `last_used_at`, contradicting the claim's "stamps the entry's
`last_used_at` with the current time". -/
theorem c2_release_counterexample :
    release_llm c2CexSt "h" ≠ release_llm_asSpecified c2CexSt "h" 5 ∧
    (getKey (release_llm c2CexSt "h").cache "h").map
      (fun e => e.last_used_at) = some 0 := by
  decide

/-- C2 (amended): `release_llm` on a fingerprint with no active entry
(unknown, or already fully released and hence sitting in the cache pool) is
a no-op that never raises; otherwise it decrements the entry's
`reference_count`, and when the count reaches 0 it moves the entry from the
active dict to the cache (idle) dict with `is_in_use = false` — leaving
`last_used_at` unchanged rather than stamping it. -/
theorem c2_pool_release_amended (st : ManagerState) :
    (∀ h, getKey st.active h = none → release_llm st h = st) ∧
    (∀ h e, getKey st.active h = some e → 1 < e.reference_count →
        getKey (release_llm st h).active h =
          some ({ e with reference_count := e.reference_count - 1 }) ∧
        (release_llm st h).cache = st.cache) ∧
    (∀ h e, getKey st.active h = some e → e.reference_count ≤ 1 →
        getKey (release_llm st h).active h = none ∧
        getKey (release_llm st h).cache h =
          some ({ e with is_in_use := false, reference_count := 0 })) := by
  refine ⟨?_, ?_, ?_⟩
  · intro h ha
    exact release_llm_unknown st h ha
  · intro h e ha hrc
    rw [release_llm_dec st h e ha (by omega)]
    exact ⟨getKey_setKey_self _ _ _, rfl⟩
  · intro h e ha hrc
    rw [release_llm_to_cache st h e ha (by omega)]
    exact ⟨getKey_delKey_self _ _, getKey_setKey_self _ _ _⟩

theorem c2_pool_release_amended_witness :
    getKey c2CexSt.active "h" = some c2CexEntry ∧
    c2CexEntry.reference_count ≤ 1 ∧
    (getKey (release_llm c2CexSt "h").active "h" = none ∧
      getKey (release_llm c2CexSt "h").cache "h" =
        some ({ c2CexEntry with is_in_use := false, reference_count := 0 })) :=
  ⟨by decide, by decide,
    (c2_pool_release_amended c2CexSt).2.2 "h" c2CexEntry (by decide) (by decide)⟩

/-! ## Claim C5 — cleanup (TTL + LRU eviction) -/

instance : IsTotal (String × LLMEntry) lastUsedLe :=
  ⟨fun p q => Int.le_total p.2.last_used_at q.2.last_used_at⟩

instance : IsTrans (String × LLMEntry) lastUsedLe :=
  ⟨fun _ _ _ hab hbc => le_trans hab hbc⟩

theorem eq_of_mem_nodup_keys {l : List (String × α)}
    (hnod : (keysOf l).Nodup) {p q : String × α}
    (hp : p ∈ l) (hq : q ∈ l) (hk : p.1 = q.1) : p = q :=
  List.inj_on_of_nodup_map hnod hp hq hk

theorem foldl_delKey_eq_filter (ks : List String) :
    ∀ l : List (String × α),
      ks.foldl delKey l = l.filter (fun p => !ks.contains p.1) := by
  induction ks with
  | nil =>
      intro l
      simp [List.foldl]
  | cons k ks ih =>
      intro l
      rw [List.foldl_cons, ih (delKey l k)]
      unfold delKey
      rw [List.filter_filter]
      apply List.filter_congr
      intro p _
      rw [List.contains_cons]
      by_cases hpk : p.1 = k <;>
        cases hc2 : ks.contains p.1 <;> simp_all

theorem cleanup_unused_of_le (st : ManagerState) (now : Int)
    (hlen : ¬(st.cache.filter
        (fun p => !(now - p.2.last_used_at > st.cache_ttl : Bool))).length >
        st.max_cache_size) :
    cleanup_unused st now =
      { st with
          cache := st.cache.filter
            (fun p => !(now - p.2.last_used_at > st.cache_ttl : Bool)) } := by
  simp only [cleanup_unused]
  rw [if_neg hlen]

theorem cleanup_unused_of_gt (st : ManagerState) (now : Int)
    (hlen : (st.cache.filter
        (fun p => !(now - p.2.last_used_at > st.cache_ttl : Bool))).length >
        st.max_cache_size) :
    cleanup_unused st now =
      { st with
          cache :=
          (((List.insertionSort lastUsedLe (st.cache.filter
              (fun p => !(now - p.2.last_used_at > st.cache_ttl : Bool)))).take
              ((st.cache.filter
                (fun p => !(now - p.2.last_used_at > st.cache_ttl : Bool))).length
                - st.max_cache_size)).map Prod.fst).foldl delKey
            (st.cache.filter
              (fun p => !(now - p.2.last_used_at > st.cache_ttl : Bool))) } := by
  simp only [cleanup_unused]
  rw [if_pos hlen]

theorem contains_eq_true_iff_mem {l : List String} {a : String} :
    l.contains a = true ↔ a ∈ l := List.elem_iff

/-- Core of the LRU bound: deleting the keys of the `C.length - m` first
elements of the `last_used_at`-sorted cache leaves exactly `m` entries, and
every removed entry is no younger than every kept entry. -/
theorem lru_take_facts (C : List (String × LLMEntry)) (m : Nat)
    (hnodC : (keysOf C).Nodup) (hlen : C.length > m) :
    (C.filter (fun p =>
        !((((List.insertionSort lastUsedLe C).take (C.length - m)).map
          Prod.fst).contains p.1))).length = m ∧
    (∀ p ∈ C,
        p ∉ C.filter (fun p =>
          !((((List.insertionSort lastUsedLe C).take (C.length - m)).map
            Prod.fst).contains p.1)) →
        ∀ q ∈ C.filter (fun p =>
          !((((List.insertionSort lastUsedLe C).take (C.length - m)).map
            Prod.fst).contains p.1)),
          p.2.last_used_at ≤ q.2.last_used_at) := by
  have hperm : List.Perm (List.insertionSort lastUsedLe C) C :=
    List.perm_insertionSort lastUsedLe C
  have hsorted : List.Sorted lastUsedLe (List.insertionSort lastUsedLe C) :=
    List.sorted_insertionSort lastUsedLe C
  have hTD : (List.insertionSort lastUsedLe C).take (C.length - m) ++
      (List.insertionSort lastUsedLe C).drop (C.length - m) =
      List.insertionSort lastUsedLe C := List.take_append_drop _ _
  have hnodS : (keysOf (List.insertionSort lastUsedLe C)).Nodup :=
    ((hperm.map Prod.fst).nodup_iff).mpr hnodC
  have hkeys : keysOf (List.insertionSort lastUsedLe C) =
      ((List.insertionSort lastUsedLe C).take (C.length - m)).map Prod.fst ++
      ((List.insertionSort lastUsedLe C).drop (C.length - m)).map Prod.fst := by
    rw [← List.map_append, hTD]; rfl
  have hdisj : ∀ a,
      a ∈ ((List.insertionSort lastUsedLe C).take (C.length - m)).map Prod.fst →
      a ∉ ((List.insertionSort lastUsedLe C).drop (C.length - m)).map
        Prod.fst := by
    rw [hkeys] at hnodS
    intro a ha hb
    exact (List.nodup_append.mp hnodS).2.2 ha hb
  have hfilT : ((List.insertionSort lastUsedLe C).take (C.length - m)).filter
      (fun p =>
        !((((List.insertionSort lastUsedLe C).take (C.length - m)).map
          Prod.fst).contains p.1)) = [] := by
    rw [List.filter_eq_nil_iff]
    intro p hp
    have hmem : p.1 ∈
        ((List.insertionSort lastUsedLe C).take (C.length - m)).map Prod.fst :=
      List.mem_map_of_mem Prod.fst hp
    rw [Bool.not_eq_true']
    intro hc
    have h2 := contains_eq_true_iff_mem.mpr hmem
    rw [h2] at hc
    cases hc
  have hfilD : ((List.insertionSort lastUsedLe C).drop (C.length - m)).filter
      (fun p =>
        !((((List.insertionSort lastUsedLe C).take (C.length - m)).map
          Prod.fst).contains p.1)) =
      (List.insertionSort lastUsedLe C).drop (C.length - m) := by
    rw [List.filter_eq_self]
    intro p hp
    have hpk : p.1 ∈
        ((List.insertionSort lastUsedLe C).drop (C.length - m)).map Prod.fst :=
      List.mem_map_of_mem Prod.fst hp
    have hnK : p.1 ∉
        ((List.insertionSort lastUsedLe C).take (C.length - m)).map Prod.fst :=
      fun hc => hdisj p.1 hc hpk
    rw [Bool.not_eq_true']
    cases hc : ((((List.insertionSort lastUsedLe C).take (C.length - m)).map
        Prod.fst).contains p.1) with
    | true => exact absurd (contains_eq_true_iff_mem.mp hc) hnK
    | false => rfl
  have hSfil : (List.insertionSort lastUsedLe C).filter
      (fun p =>
        !((((List.insertionSort lastUsedLe C).take (C.length - m)).map
          Prod.fst).contains p.1)) =
      (List.insertionSort lastUsedLe C).drop (C.length - m) := by
    have h0 : (((List.insertionSort lastUsedLe C).take (C.length - m)) ++
        ((List.insertionSort lastUsedLe C).drop (C.length - m))).filter
          (fun p =>
            !((((List.insertionSort lastUsedLe C).take (C.length - m)).map
              Prod.fst).contains p.1)) =
        (((List.insertionSort lastUsedLe C).take (C.length - m)).filter
          (fun p =>
            !((((List.insertionSort lastUsedLe C).take (C.length - m)).map
              Prod.fst).contains p.1))) ++
        (((List.insertionSort lastUsedLe C).drop (C.length - m)).filter
          (fun p =>
            !((((List.insertionSort lastUsedLe C).take (C.length - m)).map
              Prod.fst).contains p.1))) := List.filter_append _ _
    rw [hTD] at h0
    rw [h0, hfilT, hfilD, List.nil_append]
  have hCfil : List.Perm
      (C.filter (fun p =>
        !((((List.insertionSort lastUsedLe C).take (C.length - m)).map
          Prod.fst).contains p.1)))
      ((List.insertionSort lastUsedLe C).drop (C.length - m)) := by
    have h1 := (hperm.filter (fun p =>
      !((((List.insertionSort lastUsedLe C).take (C.length - m)).map
        Prod.fst).contains p.1))).symm
    rw [hSfil] at h1
    exact h1
  constructor
  · rw [hCfil.length_eq, List.length_drop, hperm.length_eq]
    omega
  · intro p hpC hpNot q hq
    have hpredp : ¬(!((((List.insertionSort lastUsedLe C).take (C.length - m)).map
        Prod.fst).contains p.1)) = true := by
      intro hc
      exact hpNot (List.mem_filter.mpr ⟨hpC, hc⟩)
    have hpK : p.1 ∈
        ((List.insertionSort lastUsedLe C).take (C.length - m)).map Prod.fst := by
      rw [Bool.not_eq_true'] at hpredp
      refine contains_eq_true_iff_mem.mp ?_
      cases hc : ((((List.insertionSort lastUsedLe C).take (C.length - m)).map
          Prod.fst).contains p.1) with
      | true => rfl
      | false => exact absurd hc hpredp
    have hpS : p ∈ List.insertionSort lastUsedLe C := hperm.mem_iff.mpr hpC
    rw [← hTD] at hpS
    have hpT : p ∈ (List.insertionSort lastUsedLe C).take (C.length - m) := by
      rcases List.mem_append.mp hpS with h1 | h1
      · exact h1
      · exact absurd (List.mem_map_of_mem Prod.fst h1) (hdisj p.1 hpK)
    have hqD : q ∈ (List.insertionSort lastUsedLe C).drop (C.length - m) :=
      hCfil.subset hq
    have hpw := hsorted
    rw [List.Sorted, ← hTD] at hpw
    exact (List.pairwise_append.mp hpw).2.2 p hpT q hqD

theorem cleanup_cache_subset_survivors (st : ManagerState) (now : Int) :
    ∀ q ∈ (cleanup_unused st now).cache,
      q ∈ st.cache.filter
        (fun p => !(now - p.2.last_used_at > st.cache_ttl : Bool)) := by
  intro q hq
  by_cases hlen : (st.cache.filter
      (fun p => !(now - p.2.last_used_at > st.cache_ttl : Bool))).length >
      st.max_cache_size
  · rw [cleanup_unused_of_gt st now hlen, foldl_delKey_eq_filter] at hq
    exact (List.mem_filter.mp hq).1
  · rw [cleanup_unused_of_le st now hlen] at hq
    exact hq

theorem expired_not_in_cleanup (st : ManagerState) (now : Int)
    (hnod : (keysOf st.cache).Nodup) :
    ∀ p ∈ st.cache, now - p.2.last_used_at > st.cache_ttl →
      p.1 ∉ keysOf (cleanup_unused st now).cache := by
  intro p hp hexp hmem
  obtain ⟨q, hq, hqk⟩ := List.mem_map.mp hmem
  have hqC := cleanup_cache_subset_survivors st now q hq
  obtain ⟨hqmem, hqyoung⟩ := List.mem_filter.mp hqC
  have hpq : p = q := eq_of_mem_nodup_keys hnod hp hqmem hqk.symm
  subst hpq
  rw [Bool.not_eq_true', decide_eq_false_iff_not] at hqyoung
  exact hqyoung hexp

/-- C5: one `cleanup_unused` pass removes from the cache (idle) pool exactly
those entries whose age `now - last_used_at` exceeds `cache_ttl` (younger
idle entries survive: when the survivors fit the cap, the resulting cache is
exactly the TTL survivors), and then, if the cache still holds more than
`max_cache_size` entries, removes oldest-by-`last_used_at` entries until
exactly `max_cache_size` remain; active entries are never removed. -/
theorem c5_cleanup_eviction (st : ManagerState) (now : Int)
    (hnod : (keysOf st.cache).Nodup) :
    (cleanup_unused st now).active = st.active ∧
    (∀ p ∈ st.cache, now - p.2.last_used_at > st.cache_ttl →
        p.1 ∉ keysOf (cleanup_unused st now).cache) ∧
    ((st.cache.filter
        (fun p => !(now - p.2.last_used_at > st.cache_ttl : Bool))).length ≤
        st.max_cache_size →
      (cleanup_unused st now).cache =
        st.cache.filter
          (fun p => !(now - p.2.last_used_at > st.cache_ttl : Bool))) ∧
    ((st.cache.filter
        (fun p => !(now - p.2.last_used_at > st.cache_ttl : Bool))).length >
        st.max_cache_size →
      (cleanup_unused st now).cache.length = st.max_cache_size ∧
      (∀ q ∈ (cleanup_unused st now).cache,
          q ∈ st.cache.filter
            (fun p => !(now - p.2.last_used_at > st.cache_ttl : Bool))) ∧
      (∀ p ∈ st.cache.filter
            (fun p => !(now - p.2.last_used_at > st.cache_ttl : Bool)),
          p ∉ (cleanup_unused st now).cache →
          ∀ q ∈ (cleanup_unused st now).cache,
            p.2.last_used_at ≤ q.2.last_used_at)) := by
  refine ⟨cleanup_active_eq st now, expired_not_in_cleanup st now hnod, ?_, ?_⟩
  · intro hle
    rw [cleanup_unused_of_le st now (by omega)]
  · intro hgt
    have hnodC : (keysOf (st.cache.filter
        (fun p => !(now - p.2.last_used_at > st.cache_ttl : Bool)))).Nodup :=
      ((List.filter_sublist st.cache).map Prod.fst).nodup hnod
    have hfin : (cleanup_unused st now).cache =
        (st.cache.filter
          (fun p => !(now - p.2.last_used_at > st.cache_ttl : Bool))).filter
          (fun p =>
            !((((List.insertionSort lastUsedLe (st.cache.filter
                (fun p => !(now - p.2.last_used_at > st.cache_ttl : Bool)))).take
                ((st.cache.filter
                  (fun p => !(now - p.2.last_used_at > st.cache_ttl : Bool))).length
                  - st.max_cache_size)).map Prod.fst).contains p.1)) := by
      rw [cleanup_unused_of_gt st now hgt, foldl_delKey_eq_filter]
    obtain ⟨hlength, holdest⟩ := lru_take_facts
      (st.cache.filter
        (fun p => !(now - p.2.last_used_at > st.cache_ttl : Bool)))
      st.max_cache_size hnodC hgt
    refine ⟨?_, cleanup_cache_subset_survivors st now, ?_⟩
    · rw [hfin]; exact hlength
    · intro p hp hpNot q hq
      rw [hfin] at hpNot hq
      exact holdest p hp hpNot q hq

/-- Idle-entry builder for the C5 witness state. -/
def c5IdleEntry (h : String) (l : Nat) (t : Int) : String × LLMEntry :=
  (h, { llm := l, config_hash := h, config := [], created_at := 0,
        last_used_at := t, reference_count := 0, is_in_use := false })

/-- The single active entry of the C5 witness state. -/
def c5ActiveEntry : LLMEntry :=
  { llm := 1, config_hash := "a", config := [], created_at := 0,
    last_used_at := 0, reference_count := 1, is_in_use := true }

/-- Concrete state for the C5 witness: one active entry, one expired idle
entry, two young idle entries, `cache_ttl = 10`, `max_cache_size = 1`. -/
def c5WSt : ManagerState :=
  { active := [("a", c5ActiveEntry)],
    cache := [c5IdleEntry "e1" 2 0, c5IdleEntry "e2" 3 15,
              c5IdleEntry "e3" 4 12],
    cache_ttl := 10, max_cache_size := 1 }

theorem c5_cleanup_eviction_witness :
    (keysOf c5WSt.cache).Nodup ∧
    (cleanup_unused c5WSt 20).active = c5WSt.active ∧
    (cleanup_unused c5WSt 20).cache.length = c5WSt.max_cache_size :=
  ⟨by decide, (c5_cleanup_eviction c5WSt 20 (by decide)).1,
    ((c5_cleanup_eviction c5WSt 20 (by decide)).2.2.2 (by decide)).1⟩

/-! ## `OpenAIService` handle (`src/llm/service/openai_service.py`) -/

/-- The handle's state: its fingerprint, the `_released` flag, and the
`_llm` field (the held resource reference, `None` when absent). -/
structure OpenAIService where
  config_hash : String
  released : Bool
  llm : Option Nat
deriving DecidableEq, Repr

/-- `OpenAIService.__init__`: when an `llm` is passed, the constructor
re-fetches it from the manager (incrementing the reference count); when
not, `_llm` starts as `None`. -/
def mkOpenAIService (st : ManagerState) (config_hash : String)
    (llmArg : Option Nat) (now : Int) : ManagerState × OpenAIService :=
  match llmArg with
  | some _ =>
      let r := get_llm st config_hash now
      (r.1, { config_hash := config_hash, released := false, llm := r.2 })
  | none => (st, { config_hash := config_hash, released := false, llm := none })

/-- `OpenAIService.get_llm`: `None` once released; otherwise returns the
held reference, fetching it from the manager first if absent. -/
def service_get_llm (st : ManagerState) (svc : OpenAIService) (now : Int) :
    ManagerState × OpenAIService × Option Nat :=
  if svc.released then (st, svc, none)
  else
    match svc.llm with
    | some l => (st, svc, some l)
    | none =>
        let r := get_llm st svc.config_hash now
        (r.1, { svc with llm := r.2 }, r.2)

/-- `OpenAIService.release`: releases the manager reference once; no-op if
already released or if no reference is held. -/
def service_release (st : ManagerState) (svc : OpenAIService) :
    ManagerState × OpenAIService :=
  if ¬svc.released = true ∧ svc.llm ≠ none then
    (release_llm st svc.config_hash, { svc with released := true, llm := none })
  else (st, svc)

/-- `OpenAIService.__del__` — calls `self.release()` (exceptions ignored;
the modelled release is total). -/
def service_del (st : ManagerState) (svc : OpenAIService) :
    ManagerState × OpenAIService := service_release st svc

/-- `LLMServiceAbstract.__exit__` — calls `self.release()` on scope exit. -/
def service_exit (st : ManagerState) (svc : OpenAIService) :
    ManagerState × OpenAIService := service_release st svc

theorem service_release_live (st : ManagerState) (svc : OpenAIService)
    (hrel : svc.released = false) (hllm : svc.llm ≠ none) :
    service_release st svc =
      (release_llm st svc.config_hash,
        { svc with released := true, llm := none }) := by
  unfold service_release
  rw [if_pos ⟨by rw [hrel]; exact Bool.false_ne_true, hllm⟩]

theorem service_release_released (st : ManagerState) (svc : OpenAIService)
    (hrel : svc.released = true) : service_release st svc = (st, svc) := by
  unfold service_release
  rw [if_neg]
  intro hc
  exact hc.1 hrel

/-- C4: for a handle that holds a live resource reference (as every handle
built by the factory does), the first `release()` decrements the pool's
reference count for its fingerprint exactly once and marks the handle
released; every subsequent `release()` — including the one run by
`__del__` or by `__exit__` on scope exit — is a no-op performing no
further decrement, and `get_llm()` returns `None` after release. -/
theorem c4_handle_idempotent_release (st : ManagerState) (svc : OpenAIService)
    (e : LLMEntry) (hrel : svc.released = false) (hllm : svc.llm ≠ none)
    (ha : getKey st.active svc.config_hash = some e) :
    (service_release st svc).2.released = true ∧
    (service_release st svc).2.llm = none ∧
    (1 < e.reference_count →
      getKey (service_release st svc).1.active svc.config_hash =
        some ({ e with reference_count := e.reference_count - 1 }) ∧
      (service_release st svc).1.cache = st.cache) ∧
    (e.reference_count ≤ 1 →
      getKey (service_release st svc).1.active svc.config_hash = none ∧
      getKey (service_release st svc).1.cache svc.config_hash =
        some ({ e with is_in_use := false, reference_count := 0 })) ∧
    (∀ st' : ManagerState,
      service_release st' (service_release st svc).2 =
        (st', (service_release st svc).2) ∧
      service_del st' (service_release st svc).2 =
        (st', (service_release st svc).2) ∧
      service_exit st' (service_release st svc).2 =
        (st', (service_release st svc).2)) ∧
    (∀ (st' : ManagerState) (now : Int),
      service_get_llm st' (service_release st svc).2 now =
        (st', (service_release st svc).2, none)) := by
  have hred := service_release_live st svc hrel hllm
  refine ⟨by rw [hred], by rw [hred], ?_, ?_, ?_, ?_⟩
  · intro hrc
    rw [hred, release_llm_dec st svc.config_hash e ha (by omega)]
    exact ⟨getKey_setKey_self _ _ _, rfl⟩
  · intro hrc
    rw [hred, release_llm_to_cache st svc.config_hash e ha (by omega)]
    exact ⟨getKey_delKey_self _ _, getKey_setKey_self _ _ _⟩
  · intro st'
    have h2 : (service_release st svc).2.released = true := by rw [hred]
    exact ⟨service_release_released st' _ h2,
      service_release_released st' _ h2, service_release_released st' _ h2⟩
  · intro st' now
    have h2 : (service_release st svc).2.released = true := by rw [hred]
    unfold service_get_llm
    rw [if_pos h2]

/-- Concrete handle for the C4 witness. -/
def c4WSvc : OpenAIService :=
  { config_hash := "h", released := false, llm := some 7 }

theorem c4_handle_idempotent_release_witness :
    (c4WSvc.released = false ∧ c4WSvc.llm ≠ none ∧
      getKey c2CexSt.active c4WSvc.config_hash = some c2CexEntry) ∧
    (service_release c2CexSt c4WSvc).2.released = true :=
  ⟨⟨by decide, by decide, by decide⟩,
    (c4_handle_idempotent_release c2CexSt c4WSvc c2CexEntry
      (by decide) (by decide) (by decide)).1⟩

/-! ## Claim C9 — `OpenAIFactory.create_service` checks the pool out twice
(`src/llm/factory/openai.py`) -/

/-- `OpenAIFactory.create_llm`: ask the manager first (`get_llm`, which
bumps the count on a hit); on a miss construct a fresh model — `newLlm`
models the object identity of the `ChatOpenAI` that would be built — and
`register_llm` it. -/
def create_llm (st : ManagerState) (config : List (String × String))
    (newLlm : Nat) (now : Int) : ManagerState × Nat :=
  let r := get_llm st (compute_config_hash config) now
  match r.2 with
  | some existing => (r.1, existing)
  | none =>
      let r2 := register_llm r.1 newLlm config now
      (r2.1, r2.2.2)

/-- `OpenAIFactory.create_service`: `create_llm`, then
`OpenAIService(config_hash=..., llm=llm)` — whose `__init__` calls
`manager.get_llm` again. -/
def create_service (st : ManagerState) (config : List (String × String))
    (newLlm : Nat) (now : Int) : ManagerState × OpenAIService :=
  let r := create_llm st config newLlm now
  mkOpenAIService r.1 (compute_config_hash config) (some r.2) now

/-- C9: for a fresh configuration, `create_service` checks the pooled
resource out twice — once in `create_llm` (`register_llm` sets the count
to 1) and once in `OpenAIService.__init__` (`get_llm` bumps it to 2) — so
after one `release()` the count is 1 and the entry stays active, never
reaching the idle pool and never eligible for TTL/LRU eviction (cleanup
leaves the active dict unchanged). -/
theorem c9_factory_double_checkout (st : ManagerState)
    (config : List (String × String)) (newLlm : Nat) (t tc : Int)
    (ha : getKey st.active (compute_config_hash config) = none)
    (hc : getKey st.cache (compute_config_hash config) = none) :
    (∃ e, getKey (create_service st config newLlm t).1.active
        (compute_config_hash config) = some e ∧
      e.llm = newLlm ∧ e.reference_count = 2) ∧
    (create_service st config newLlm t).2.llm = some newLlm ∧
    (create_service st config newLlm t).2.released = false ∧
    (∃ e, getKey (service_release (create_service st config newLlm t).1
          (create_service st config newLlm t).2).1.active
        (compute_config_hash config) = some e ∧
      e.llm = newLlm ∧ e.reference_count = 1) ∧
    getKey (service_release (create_service st config newLlm t).1
        (create_service st config newLlm t).2).1.cache
      (compute_config_hash config) = none ∧
    getKey (cleanup_unused (service_release (create_service st config newLlm t).1
          (create_service st config newLlm t).2).1 tc).active
        (compute_config_hash config) =
      getKey (service_release (create_service st config newLlm t).1
          (create_service st config newLlm t).2).1.active
        (compute_config_hash config) := by
  have h1 := get_llm_miss st (compute_config_hash config) t ha hc
  have h2 := register_llm_fresh st newLlm config t hc
  have hcl : create_llm st config newLlm t =
      ((register_llm st newLlm config t).1, newLlm) := by
    simp only [create_llm]
    rw [h1]
    dsimp only
    rw [h2]
  have hE1 : getKey (register_llm st newLlm config t).1.active
      (compute_config_hash config) =
      some ({ llm := newLlm, config_hash := compute_config_hash config,
              config := config, created_at := t, last_used_at := t,
              is_in_use := true, reference_count := 1 }) := by
    rw [h2]
    exact getKey_setKey_self _ _ _
  have h3 := get_llm_active (register_llm st newLlm config t).1
    (compute_config_hash config) t _ hE1
  have hcs : create_service st config newLlm t =
      ((get_llm (register_llm st newLlm config t).1
          (compute_config_hash config) t).1,
        { config_hash := compute_config_hash config, released := false,
          llm := (get_llm (register_llm st newLlm config t).1
            (compute_config_hash config) t).2 }) := by
    simp only [create_service, mkOpenAIService]
    rw [hcl]
  rw [hcs, h3]
  dsimp only
  have hE2 : getKey (setKey (register_llm st newLlm config t).1.active
      (compute_config_hash config)
      ({ llm := newLlm, config_hash := compute_config_hash config,
         config := config, created_at := t, last_used_at := t,
         is_in_use := true, reference_count := (1 : Int) + 1 }))
      (compute_config_hash config) =
      some ({ llm := newLlm, config_hash := compute_config_hash config,
              config := config, created_at := t, last_used_at := t,
              is_in_use := true, reference_count := (1 : Int) + 1 }) :=
    getKey_setKey_self _ _ _
  refine ⟨⟨_, hE2, rfl, by norm_num⟩, rfl, rfl, ?_⟩
  have hrel : service_release
      ({ active := setKey (register_llm st newLlm config t).1.active
            (compute_config_hash config)
            ({ llm := newLlm, config_hash := compute_config_hash config,
               config := config, created_at := t, last_used_at := t,
               is_in_use := true, reference_count := (1 : Int) + 1 }),
          cache := (register_llm st newLlm config t).1.cache,
          cache_ttl := (register_llm st newLlm config t).1.cache_ttl,
          max_cache_size :=
            (register_llm st newLlm config t).1.max_cache_size } : ManagerState)
      ({ config_hash := compute_config_hash config, released := false,
         llm := some newLlm }) =
      (release_llm
        ({ active := setKey (register_llm st newLlm config t).1.active
              (compute_config_hash config)
              ({ llm := newLlm, config_hash := compute_config_hash config,
                 config := config, created_at := t, last_used_at := t,
                 is_in_use := true, reference_count := (1 : Int) + 1 }),
            cache := (register_llm st newLlm config t).1.cache,
            cache_ttl := (register_llm st newLlm config t).1.cache_ttl,
            max_cache_size :=
              (register_llm st newLlm config t).1.max_cache_size } : ManagerState)
        (compute_config_hash config),
        { config_hash := compute_config_hash config, released := true,
          llm := none }) := by
    apply service_release_live
    · rfl
    · intro hx
      cases hx
  rw [hrel]
  have hdec := release_llm_dec
    ({ active := setKey (register_llm st newLlm config t).1.active
          (compute_config_hash config)
          ({ llm := newLlm, config_hash := compute_config_hash config,
             config := config, created_at := t, last_used_at := t,
             is_in_use := true, reference_count := (1 : Int) + 1 }),
        cache := (register_llm st newLlm config t).1.cache,
        cache_ttl := (register_llm st newLlm config t).1.cache_ttl,
        max_cache_size :=
          (register_llm st newLlm config t).1.max_cache_size } : ManagerState)
    (compute_config_hash config)
    ({ llm := newLlm, config_hash := compute_config_hash config,
       config := config, created_at := t, last_used_at := t,
       is_in_use := true, reference_count := (1 : Int) + 1 })
    hE2 (by norm_num)
  rw [hdec]
  refine ⟨⟨_, getKey_setKey_self _ _ _, rfl, by norm_num⟩, ?_, ?_⟩
  · show getKey (register_llm st newLlm config t).1.cache
      (compute_config_hash config) = none
    rw [h2]
    exact hc
  · rw [cleanup_active_eq]

theorem c9_factory_double_checkout_witness :
    getKey (initManager 3600 100).active
      (compute_config_hash [("model_name", "gpt-4")]) = none ∧
    getKey (initManager 3600 100).cache
      (compute_config_hash [("model_name", "gpt-4")]) = none ∧
    (∃ e, getKey (create_service (initManager 3600 100)
        [("model_name", "gpt-4")] 7 0).1.active
        (compute_config_hash [("model_name", "gpt-4")]) = some e ∧
      e.llm = 7 ∧ e.reference_count = 2) :=
  ⟨rfl, rfl,
    (c9_factory_double_checkout (initManager 3600 100)
      [("model_name", "gpt-4")] 7 0 0 rfl rfl).1⟩

/-! ## `AgentManager` (`src/agent/agent_manager.py`) -/

deriving instance DecidableEq for Except

/-- `AgentEntry` (dataclass).  `create_func` models the optional
construction closure: invoking it either yields a graph (identified by a
`Nat`) or raises with a message. -/
structure AgentEntry where
  name : String
  agent_id : String
  config : List (String × String)
  create_func : Option (Except String Nat)
  created_at : Int
deriving DecidableEq, Repr

/-- The mutable state of the `AgentManager` singleton. -/
structure AgentManagerState where
  registered : List (String × AgentEntry)
  nameToIds : List (String × List String)
  auto_register : Bool
deriving DecidableEq, Repr

/-- A freshly initialized agent manager. -/
def initAgentManager (autoRegister : Bool) : AgentManagerState :=
  { registered := [], nameToIds := [], auto_register := autoRegister }

/-- `AgentManager.register` with `config_path=None` (no config-file merge;
the claims quantify over the in-memory `(name, config)` pair).  The
`_name_to_ids` sets are stored as their (insertion-ordered) element
lists. -/
def agent_register (m : AgentManagerState) (name : String)
    (config : List (String × String))
    (create_func : Option (Except String Nat)) (now : Int) :
    AgentManagerState × String :=
  let agent_id := computeAgentId name config
  if hasKey m.registered agent_id then (m, agent_id)
  else
    let entry : AgentEntry :=
      { name := name, agent_id := agent_id, config := config,
        create_func := create_func, created_at := now }
    let ids := (getKey m.nameToIds name).getD []
    ({ m with
        registered := setKey m.registered agent_id entry,
        nameToIds := setKey m.nameToIds name
          (if agent_id ∈ ids then ids else ids ++ [agent_id]) },
      agent_id)

/-- `AgentManager.get_stats()["registered_agents"]` =
`len(self._registered_agents)` (the spec's `total_registered`). -/
def agent_registered_count (m : AgentManagerState) : Nat :=
  m.registered.length

theorem agent_register_existing (m : AgentManagerState) (name : String)
    (config : List (String × String)) (cf : Option (Except String Nat))
    (t : Int) (h : hasKey m.registered (computeAgentId name config) = true) :
    agent_register m name config cf t = (m, computeAgentId name config) := by
  simp only [agent_register]
  rw [if_pos h]

theorem agent_register_fresh (m : AgentManagerState) (name : String)
    (config : List (String × String)) (cf : Option (Except String Nat))
    (t : Int) (h : hasKey m.registered (computeAgentId name config) = false) :
    agent_register m name config cf t =
      ({ m with
          registered := setKey m.registered (computeAgentId name config)
            ({ name := name, agent_id := computeAgentId name config,
               config := config, create_func := cf, created_at := t }),
          nameToIds := setKey m.nameToIds name
            (if computeAgentId name config ∈
                (getKey m.nameToIds name).getD [] then
              (getKey m.nameToIds name).getD []
            else (getKey m.nameToIds name).getD [] ++
              [computeAgentId name config]) },
        computeAgentId name config) := by
  simp only [agent_register]
  rw [if_neg]
  rw [h]
  exact Bool.false_ne_true

theorem length_setKey (l : List (String × α)) (k : String) (v : α) :
    (setKey l k v).length =
      if hasKey l k = true then l.length else l.length + 1 := by
  induction l with
  | nil => simp [setKey, hasKey]
  | cons p rest ih =>
      obtain ⟨k₀, v₀⟩ := p
      by_cases hk : k₀ = k
      · subst hk
        have h1 : hasKey ((k₀, v₀) :: rest) k₀ = true := by simp [hasKey]
        rw [h1, if_pos rfl]
        simp [setKey]
      · have hcons : hasKey ((k₀, v₀) :: rest) k = hasKey rest k := by
          simp [hasKey, List.any_cons, hk]
        rw [hcons]
        simp only [setKey, if_neg hk, List.length_cons]
        rw [ih]
        by_cases hrest : hasKey rest k = true
        · rw [if_pos hrest, if_pos hrest]
        · rw [if_neg hrest, if_neg hrest]

/-- C7: registering the same `(name, config)` twice returns the same id
both times, leaves the second call's state unchanged (so the
`registered_agents` statistic is incremented only once, by the first call
when the pair is new), and never raises — the duplicate path just returns
the existing id. -/
theorem c7_register_idempotent (m : AgentManagerState) (name : String)
    (config : List (String × String)) (cf cf' : Option (Except String Nat))
    (t t' : Int) :
    (agent_register (agent_register m name config cf t).1 name config cf' t').2 =
      (agent_register m name config cf t).2 ∧
    agent_register (agent_register m name config cf t).1 name config cf' t' =
      ((agent_register m name config cf t).1,
        (agent_register m name config cf t).2) ∧
    agent_registered_count (agent_register m name config cf t).1 =
      (if hasKey m.registered (computeAgentId name config) = true then
        agent_registered_count m
      else agent_registered_count m + 1) ∧
    agent_registered_count
        (agent_register (agent_register m name config cf t).1 name config
          cf' t').1 =
      agent_registered_count (agent_register m name config cf t).1 := by
  by_cases h : hasKey m.registered (computeAgentId name config) = true
  · have h1 := agent_register_existing m name config cf t h
    have h2 := agent_register_existing m name config cf' t' h
    rw [h1]
    refine ⟨by rw [h2], by rw [h2], by rw [if_pos h], by rw [h2]⟩
  · have hf : hasKey m.registered (computeAgentId name config) = false := by
      cases hx : hasKey m.registered (computeAgentId name config) with
      | true => exact absurd hx h
      | false => rfl
    have h1 := agent_register_fresh m name config cf t hf
    have h2key : hasKey (agent_register m name config cf t).1.registered
        (computeAgentId name config) = true := by
      rw [h1]
      exact hasKey_eq_true_of_getKey (getKey_setKey_self _ _ _)
    have h2 := agent_register_existing (agent_register m name config cf t).1
      name config cf' t' h2key
    refine ⟨by rw [h2]; rw [h1], by rw [h2]; rw [h1], ?_, by rw [h2]⟩
    rw [if_neg h]
    show (agent_register m name config cf t).1.registered.length =
      m.registered.length + 1
    rw [h1]
    show (setKey m.registered (computeAgentId name config) _).length =
      m.registered.length + 1
    rw [length_setKey, if_neg]
    rw [hf]
    exact Bool.false_ne_true

/-! ## Claim C8 — error typing of `AgentManager.create_agent`

Both failure paths of `create_agent` raise Python `ValueError` (one generic
type), not the distinct `NotRegisteredError` / `ConstructionError` the
claim describes; the two cases differ only in message and `__cause__`. -/

/-- One raised Python exception: its type name, message, and the chained
`__cause__` message (from `raise ... from e`), if any. -/
structure PyError where
  ty : String
  msg : String
  cause : Option String
deriving DecidableEq, Repr

/-- A single-quote character as it appears inside the code's f-string
messages. -/
def pyQuote : String := String.mk [Char.ofNat 39]

/-- `AgentManager.create_agent`.  `importer` abstracts the
`__import__("src.agent.<name>.agent")` fallback used when an entry carries
no `create_func` (its failures are wrapped as the code wraps
`ImportError`).  Raised exceptions are returned as `Except.error`. -/
def create_agent (importer : String → Except String Nat)
    (m : AgentManagerState) (agent_id : String) : Except PyError Nat :=
  match getKey m.registered agent_id with
  | none =>
      .error { ty := "ValueError",
               msg := "Agent with ID " ++ pyQuote ++ agent_id ++ pyQuote ++
                 " is not registered",
               cause := none }
  | some entry =>
      match entry.create_func with
      | some f =>
          match f with
          | .ok g => .ok g
          | .error e =>
              .error { ty := "ValueError",
                       msg := "Failed to create agent " ++ pyQuote ++ entry.name ++
                         pyQuote ++ ": " ++ e,
                       cause := some e }
      | none =>
          match importer entry.name with
          | .ok g => .ok g
          | .error e =>
              .error { ty := "ValueError",
                       msg := "Failed to import agent module for " ++ pyQuote ++
                         entry.name ++ pyQuote ++ ": " ++ e,
                       cause := some e }

/-- The raised exception's Python type name (empty for a success). -/
def raisedType : Except PyError Nat → String
  | .ok _ => ""
  | .error e => e.ty

/-- Registry with one entry whose factory raises, for the C8
counterexample. -/
def c8M : AgentManagerState :=
  { registered := [("id1",
      { name := "x", agent_id := "id1", config := [],
        create_func := some (Except.error "boom"), created_at := 0 })],
    nameToIds := [("x", ["id1"])], auto_register := true }

/-- Importer stub for the C8 counterexample (never reached by it). -/
def c8Importer : String → Except String Nat := fun _ => Except.error "import failed"

/-- C8 counterexample: `create_agent` on an unknown id and `create_agent`
on an entry whose factory raises both fail with the *same* Python exception
type, `ValueError` — not two distinct typed errors as the claim states. -/
theorem c8_error_typing_counterexample :
    (create_agent c8Importer c8M "unknown").isOk = false ∧
    (create_agent c8Importer c8M "id1").isOk = false ∧
    raisedType (create_agent c8Importer c8M "unknown") =
      raisedType (create_agent c8Importer c8M "id1") ∧
    raisedType (create_agent c8Importer c8M "unknown") = "ValueError" := by
  refine ⟨?_, ?_, ?_, ?_⟩ <;> decide

/-- C8 (amended): `create_agent` on an unknown id fails with a `ValueError`
whose message says the id is not registered and which carries no cause;
factory exceptions are wrapped into a `ValueError` carrying the original
cause and the entity name, never propagated raw; but both failures share
the one generic type `ValueError` — callers can distinguish them only by
message content or by the presence of a `__cause__`, not as distinct typed
errors. -/
theorem c8_error_wrapping_amended (importer : String → Except String Nat)
    (m : AgentManagerState) :
    (∀ agent_id, getKey m.registered agent_id = none →
      create_agent importer m agent_id =
        Except.error
          { ty := "ValueError",
            msg := "Agent with ID " ++ pyQuote ++ agent_id ++ pyQuote ++
              " is not registered",
            cause := none }) ∧
    (∀ agent_id entry emsg, getKey m.registered agent_id = some entry →
      entry.create_func = some (Except.error emsg) →
      create_agent importer m agent_id =
        Except.error
          { ty := "ValueError",
            msg := "Failed to create agent " ++ pyQuote ++ entry.name ++
              pyQuote ++ ": " ++ emsg,
            cause := some emsg }) ∧
    (∀ agent_id entry g, getKey m.registered agent_id = some entry →
      entry.create_func = some (Except.ok g) →
      create_agent importer m agent_id = Except.ok g) := by
  refine ⟨?_, ?_, ?_⟩
  · intro agent_id hid
    simp only [create_agent, hid]
  · intro agent_id entry emsg hid hcf
    simp only [create_agent, hid, hcf]
  · intro agent_id entry g hid hcf
    simp only [create_agent, hid, hcf]

theorem c8_error_wrapping_amended_witness :
    (getKey c8M.registered "unknown" = none ∧
      create_agent c8Importer c8M "unknown" =
        Except.error
          { ty := "ValueError",
            msg := "Agent with ID " ++ pyQuote ++ "unknown" ++ pyQuote ++
              " is not registered",
            cause := none }) ∧
    (getKey c8M.registered "id1" = some
        ({ name := "x", agent_id := "id1", config := [],
           create_func := some (Except.error "boom"), created_at := 0 }) ∧
      create_agent c8Importer c8M "id1" =
        Except.error
          { ty := "ValueError",
            msg := "Failed to create agent " ++ pyQuote ++ "x" ++ pyQuote ++
              ": " ++ "boom",
            cause := some "boom" }) :=
  ⟨⟨by decide,
    (c8_error_wrapping_amended c8Importer c8M).1 "unknown" (by decide)⟩,
   ⟨by decide,
    (c8_error_wrapping_amended c8Importer c8M).2.1 "id1"
      ({ name := "x", agent_id := "id1", config := [],
         create_func := some (Except.error "boom"), created_at := 0 })
      "boom" (by decide) (by decide)⟩⟩

/-! ## Claim C6 — fingerprint determinism and separation -/

instance : IsTotal (String × String) pairLe := by
  constructor
  intro p q
  rcases lt_trichotomy p.1 q.1 with h | h | h
  · exact Or.inl (Or.inl h)
  · rcases le_total p.2 q.2 with h2 | h2
    · exact Or.inl (Or.inr ⟨h, h2⟩)
    · exact Or.inr (Or.inr ⟨h.symm, h2⟩)
  · exact Or.inr (Or.inl h)

instance : IsTrans (String × String) pairLe := by
  constructor
  intro a b c hab hbc
  rcases hab with h1 | ⟨h1, h1v⟩
  · rcases hbc with h2 | ⟨h2, _⟩
    · exact Or.inl (h1.trans h2)
    · exact Or.inl (h2 ▸ h1)
  · rcases hbc with h2 | ⟨h2, h2v⟩
    · exact Or.inl (h1 ▸ h2)
    · exact Or.inr ⟨h1.trans h2, h1v.trans h2v⟩

instance : IsAntisymm (String × String) pairLe := by
  constructor
  intro a b hab hba
  rcases hab with h1 | ⟨h1, h1v⟩
  · rcases hba with h2 | ⟨h2, _⟩
    · exact absurd (h1.trans h2) (lt_irrefl _)
    · exact absurd h1 (h2 ▸ lt_irrefl _)
  · rcases hba with h2 | ⟨h2, h2v⟩
    · exact absurd h2 (h1 ▸ lt_irrefl _)
    · exact Prod.ext h1 (le_antisymm h1v h2v)

/-- `sorted(config.items())` is insertion-order independent: permuted
inputs sort identically (the lexicographic pair order is antisymmetric). -/
theorem insertionSort_pairLe_perm_eq (c1 c2 : List (String × String))
    (h : List.Perm c1 c2) :
    List.insertionSort pairLe c1 = List.insertionSort pairLe c2 :=
  List.eq_of_perm_of_sorted
    ((List.perm_insertionSort pairLe c1).trans
      (h.trans (List.perm_insertionSort pairLe c2).symm))
    (List.sorted_insertionSort pairLe c1)
    (List.sorted_insertionSort pairLe c2)

/-- C6 (amended): both fingerprint functions are deterministic and
insertion-order independent — configuration mappings with the same
key/value pairs in any order hash identically (for `compute_config_hash`
and for `_compute_agent_id` under every name).  The claim's absolute
separation clause is dropped: the 128-bit digest cannot be injective on the
unbounded configuration space (see the counterexample), so distinct
sorted-key serializations are only separated at the serialization level,
not unconditionally at the digest level. -/
theorem c6_fingerprint_determinism (c1 c2 : List (String × String))
    (name : String) (h : List.Perm c1 c2) :
    compute_config_hash c1 = compute_config_hash c2 ∧
    computeAgentId name c1 = computeAgentId name c2 := by
  have hs := insertionSort_pairLe_perm_eq c1 c2 h
  constructor
  · unfold compute_config_hash configSerialization
    rw [hs]
  · unfold computeAgentId agentIdSerialization
    rw [hs]

theorem c6_fingerprint_determinism_witness :
    List.Perm [("temperature", "0.7"), ("model_name", "gpt-4")]
      [("model_name", "gpt-4"), ("temperature", "0.7")] ∧
    (compute_config_hash [("temperature", "0.7"), ("model_name", "gpt-4")] =
      compute_config_hash [("model_name", "gpt-4"), ("temperature", "0.7")] ∧
    computeAgentId "example"
        [("temperature", "0.7"), ("model_name", "gpt-4")] =
      computeAgentId "example"
        [("model_name", "gpt-4"), ("temperature", "0.7")]) :=
  ⟨by decide,
    c6_fingerprint_determinism _ _ "example" (by decide)⟩

theorem foldl_md5Chunk_lt (cs : List (List Nat)) :
    ∀ st : Nat × Nat × Nat × Nat,
      st.1 < 4294967296 → st.2.1 < 4294967296 → st.2.2.1 < 4294967296 →
      st.2.2.2 < 4294967296 →
      (cs.foldl md5Chunk st).1 < 4294967296 ∧
      (cs.foldl md5Chunk st).2.1 < 4294967296 ∧
      (cs.foldl md5Chunk st).2.2.1 < 4294967296 ∧
      (cs.foldl md5Chunk st).2.2.2 < 4294967296 := by
  induction cs with
  | nil => intro st h1 h2 h3 h4; exact ⟨h1, h2, h3, h4⟩
  | cons c cs ih =>
      intro st h1 h2 h3 h4
      rw [List.foldl_cons]
      exact ih (md5Chunk st c) (Nat.mod_lt _ (by norm_num))
        (Nat.mod_lt _ (by norm_num)) (Nat.mod_lt _ (by norm_num))
        (Nat.mod_lt _ (by norm_num))

theorem md5Words_lt (msg : List Nat) :
    (md5Words msg).1 < 4294967296 ∧ (md5Words msg).2.1 < 4294967296 ∧
    (md5Words msg).2.2.1 < 4294967296 ∧ (md5Words msg).2.2.2 < 4294967296 :=
  foldl_md5Chunk_lt (md5Chunks (md5Pad msg)) _ (by norm_num) (by norm_num)
    (by norm_num) (by norm_num)

/-- The MD5 state packed into a finite type (the digest has only `2^128`
possible values). -/
def md5Quad (msg : List Nat) :
    Fin 4294967296 × Fin 4294967296 × Fin 4294967296 × Fin 4294967296 :=
  ⟨⟨(md5Words msg).1, (md5Words_lt msg).1⟩,
   ⟨(md5Words msg).2.1, (md5Words_lt msg).2.1⟩,
   ⟨(md5Words msg).2.2.1, (md5Words_lt msg).2.2.1⟩,
   ⟨(md5Words msg).2.2.2, (md5Words_lt msg).2.2.2⟩⟩

/-- The `n`-th configuration of the collision family: `{"k": "a"*n}`. -/
def cfgOfNat (n : Nat) : List (String × String) :=
  [("k", String.mk (List.replicate n 'a'))]

theorem length_flatMap_escape_a (k : Nat) :
    ((List.replicate k 'a').flatMap pyEscChar).length = k := by
  induction k with
  | zero => rfl
  | succ k ih =>
      rw [List.replicate_succ, List.flatMap_cons, List.length_append, ih]
      rw [show pyEscChar 'a' = ['a'] from rfl]
      show 1 + k = k + 1
      omega

theorem c6_serial_length (n : Nat) :
    (configSerialization (cfgOfNat n)).length = n + 11 := by
  have h1 : configSerialization (cfgOfNat n) =
      "[" ++ ("(" ++ pyReprStr "k" ++ ", " ++
        pyReprStr (String.mk (List.replicate n 'a')) ++ ")") ++ "]" := rfl
  rw [h1]
  simp only [String.length_append]
  rw [show (pyReprStr (String.mk (List.replicate n 'a'))).length =
      ((List.replicate n 'a').flatMap pyEscChar).length + 2 from by
    simp [pyReprStr, String.length]]
  rw [length_flatMap_escape_a]
  rw [show ("[".length : Nat) = 1 from rfl, show ("]".length : Nat) = 1 from rfl,
    show ("(".length : Nat) = 1 from rfl, show (")".length : Nat) = 1 from rfl,
    show (", ".length : Nat) = 2 from rfl,
    show (pyReprStr "k").length = 3 from rfl]
  omega

theorem c6_serial_injective {m n : Nat}
    (h : configSerialization (cfgOfNat m) = configSerialization (cfgOfNat n)) :
    m = n := by
  have hlen := congrArg String.length h
  rw [c6_serial_length, c6_serial_length] at hlen
  omega

set_option maxHeartbeats 4000000 in
/-- C6 counterexample (negation of the separation clause): there exist two
configurations that differ under sorted-key serialization yet receive the
same `compute_config_hash` fingerprint — the digest space is finite
(`2^128` values) while the configuration space is infinite, so by the
pigeonhole principle some two distinct serializations collide. -/
theorem c6_fingerprint_collision_counterexample :
    ∃ c1 c2 : List (String × String),
      configSerialization c1 ≠ configSerialization c2 ∧
      compute_config_hash c1 = compute_config_hash c2 := by
  obtain ⟨m, n, hmn, heq⟩ :=
    Finite.exists_ne_map_eq_of_infinite
      (fun k : ℕ => md5Quad (utf8Encode (configSerialization (cfgOfNat k))))
  unfold md5Quad at heq
  refine ⟨cfgOfNat m, cfgOfNat n, ?_, ?_⟩
  · intro hc
    exact hmn (c6_serial_injective hc)
  · have e1 : (md5Words (utf8Encode (configSerialization (cfgOfNat m)))).1 =
        (md5Words (utf8Encode (configSerialization (cfgOfNat n)))).1 :=
      congrArg (fun q => q.1.1) heq
    have e2 : (md5Words (utf8Encode (configSerialization (cfgOfNat m)))).2.1 =
        (md5Words (utf8Encode (configSerialization (cfgOfNat n)))).2.1 :=
      congrArg (fun q => q.2.1.1) heq
    have e3 : (md5Words (utf8Encode (configSerialization (cfgOfNat m)))).2.2.1 =
        (md5Words (utf8Encode (configSerialization (cfgOfNat n)))).2.2.1 :=
      congrArg (fun q => q.2.2.1.1) heq
    have e4 : (md5Words (utf8Encode (configSerialization (cfgOfNat m)))).2.2.2 =
        (md5Words (utf8Encode (configSerialization (cfgOfNat n)))).2.2.2 :=
      congrArg (fun q => q.2.2.2.1) heq
    have hwords : md5Words (utf8Encode (configSerialization (cfgOfNat m))) =
        md5Words (utf8Encode (configSerialization (cfgOfNat n))) := by
      have hx := Prod.ext_iff.mpr ⟨e3, e4⟩
      have hy := Prod.ext_iff.mpr ⟨e2, hx⟩
      exact Prod.ext_iff.mpr ⟨e1, hy⟩
    unfold compute_config_hash md5Hex
    rw [hwords]

/-! ## Claim C10 — `get_agent_ids_by_name` ordering

`get_agent_ids_by_name` returns `list(self._name_to_ids.get(name, set()))`.
CPython iterates a `set` of strings in hash-table order, which depends on
the per-process randomized string hashes, not on insertion order.  The
enumeration is modelled as a stable sort of the stored element list by an
arbitrary per-process hash function `h`. -/

/-- `list(s)` for a CPython `set` whose elements (in insertion order) are
`elems`, iterated in hash order `h`. -/
def pySetList (h : String → Nat) (elems : List String) : List String :=
  List.insertionSort (fun a b => h a ≤ h b) elems

/-- `AgentManager.get_agent_ids_by_name`. -/
def get_agent_ids_by_name (h : String → Nat) (m : AgentManagerState)
    (name : String) : List String :=
  pySetList h ((getKey m.nameToIds name).getD [])

/-- The process hash for the C10 counterexample: it orders the first
registered id after the second. -/
def c10H : String → Nat :=
  fun s => if s = computeAgentId "n" [] then 1 else 0

/-- Registry after registering `("n", {})` and then `("n", {"a": "1"})`. -/
def c10M : AgentManagerState :=
  (agent_register (agent_register (initAgentManager true) "n" [] none 0).1
    "n" [("a", "1")] none 1).1

set_option maxHeartbeats 4000000 in
set_option maxRecDepth 8000 in
/-- C10 counterexample: after two registrations under the name `"n"` (in
the order `id1 = _compute_agent_id("n", {})`,
`id2 = _compute_agent_id("n", {"a": "1"})`), the stored id list is
`[id1, id2]` in registration order, yet under a process hash that places
`id1` after `id2` the returned list is `[id2, id1]` — not registration
order. -/
theorem c10_order_counterexample :
    (getKey c10M.nameToIds "n").getD [] =
      [computeAgentId "n" [], computeAgentId "n" [("a", "1")]] ∧
    get_agent_ids_by_name c10H c10M "n" ≠
      [computeAgentId "n" [], computeAgentId "n" [("a", "1")]] ∧
    get_agent_ids_by_name c10H c10M "n" =
      [computeAgentId "n" [("a", "1")], computeAgentId "n" []] := by
  refine ⟨?_, ?_, ?_⟩ <;> decide

/-- C10 (amended): `get_agent_ids_by_name` returns every id registered
under the name exactly once — a permutation of the stored insertion-ordered
id list, to which a fresh registration appends its new id — and repeated
calls with the same process hash and no intervening registrations return
the same list; but the order is the set's iteration order, not guaranteed
to be registration order. -/
theorem c10_ids_for_name_amended (h : String → Nat) (m : AgentManagerState)
    (name : String) :
    List.Perm (get_agent_ids_by_name h m name)
      ((getKey m.nameToIds name).getD []) ∧
    get_agent_ids_by_name h m name = get_agent_ids_by_name h m name ∧
    (∀ config cf t,
      hasKey m.registered (computeAgentId name config) = false →
      computeAgentId name config ∉ (getKey m.nameToIds name).getD [] →
      (getKey (agent_register m name config cf t).1.nameToIds name).getD [] =
        (getKey m.nameToIds name).getD [] ++ [computeAgentId name config]) := by
  refine ⟨List.perm_insertionSort _ _, rfl, ?_⟩
  intro config cf t hfresh hnotmem
  rw [agent_register_fresh m name config cf t hfresh]
  show (getKey (setKey m.nameToIds name _) name).getD [] = _
  rw [getKey_setKey_self]
  rw [if_neg hnotmem]
  rfl

set_option maxHeartbeats 4000000 in
set_option maxRecDepth 8000 in
theorem c10_ids_for_name_amended_witness :
    (hasKey (initAgentManager true).registered (computeAgentId "n" []) =
        false ∧
      computeAgentId "n" [] ∉
        (getKey (initAgentManager true).nameToIds "n").getD []) ∧
    (getKey (agent_register (initAgentManager true) "n" [] none
        0).1.nameToIds "n").getD [] =
      (getKey (initAgentManager true).nameToIds "n").getD [] ++
        [computeAgentId "n" []] :=
  ⟨⟨rfl, by decide⟩,
    (c10_ids_for_name_amended (fun _ => 0) (initAgentManager true) "n").2.2
      [] none 0 rfl (by decide)⟩
